import Mathlib

/-!
World state tracker of `bot/world` (go-mc).

A shallow embedding of `bot/world/chunks.go` and `bot/world/events.go`:
the column map of `World`, the four packet handlers, the two block-update
helpers and the bit-level address arithmetic, followed by the properties
proved about them.

Go's `int`, `int64` (`pk.Long`, `pk.VarLong`) and `int32` are integers of
`Int` wrapped to two's complement explicitly where the source can overflow.
A function that may not return (a slice index out of range, `make` with a
negative length, a write lock that is never released) returns `Except Fault`.
-/

namespace GoMc

/-! ## Machine integers -/

/-- Two's-complement wrap of `v` to a signed integer of `bits` bits. -/
def wrapSigned (bits : Nat) (v : Int) : Int :=
  if (v % 2 ^ bits).toNat < 2 ^ (bits - 1) then Int.ofNat (v % 2 ^ bits).toNat
  else Int.ofNat (v % 2 ^ bits).toNat - 2 ^ bits

/-- Go conversion `int32(v)`. -/
def int32 (v : Int) : Int := wrapSigned 32 v

/-- Wrap to Go's 64-bit `int` / `int64`. -/
def int64 (v : Int) : Int := wrapSigned 64 v

/-- The unsigned 64-bit pattern of a signed value. -/
def bits64 (v : Int) : Nat := (v % 2 ^ 64).toNat

/-- Go `a & b` on 64-bit signed integers. -/
def and64 (a b : Int) : Int := int64 (Int.ofNat (bits64 a &&& bits64 b))

/-- Go `a | b` on 64-bit signed integers. -/
def or64 (a b : Int) : Int := int64 (Int.ofNat (bits64 a ||| bits64 b))

/-- Go `a << k` on 64-bit signed integers: the bits shifted out are lost. -/
def shl64 (a : Int) (k : Nat) : Int := int64 (a * 2 ^ k)

/-- Go `a >> k` on signed integers of any width: arithmetic shift, rounding
towards minus infinity. -/
def sar (a : Int) (k : Nat) : Int := a / 2 ^ k

/-! ## Spatial addressing -/

/-- `sectionIdx` of chunks.go: `((y & 15) << 8) | (z << 4) | x`. -/
def sectionIdx (x y z : Int) : Int :=
  or64 (or64 (shl64 (and64 y 15) 8) (shl64 z 4)) x

/-- The section identifier decoding at the head of
`handleMultiBlockUpdatePacket`: `(chunkX, chunkY, chunkZ)` with
`chunkX = pos >> 42`, `chunkY = pos << 44 >> 44`, `chunkZ = pos << 22 >> 42`. -/
def decodeSectionPos (pos : Int) : Int × Int × Int :=
  (sar pos 42, sar (shl64 pos 44) 44, sar (shl64 pos 22) 42)

/-- The packed section identifier as the protocol writes it:
`((columnX & 0x3FFFFF) << 42) | ((columnZ & 0x3FFFFF) << 20) | (sectionY & 0xFFFFF)`. -/
def packSectionPos (columnX columnZ sectionY : Int) : Int :=
  or64 (or64 (shl64 (and64 columnX 0x3FFFFF) 42) (shl64 (and64 columnZ 0x3FFFFF) 20))
    (and64 sectionY 0xFFFFF)

/-! ## Data model -/

/-- Modelled from the spec: a Go `error` value, identified by its message. -/
abbrev Error := String

/-- Modelled from the spec: `level.BlocksState`, the voxel state identifier,
opaque beyond equality and storage. -/
abbrev BlocksState := Int

/-- Modelled from the spec: `pk.Position`, an absolute block position with
Go `int` fields. -/
structure Position where
  X : Int
  Y : Int
  Z : Int

/-- Modelled from the spec: `level.ChunkPos`, the column coordinate, a pair of
`int32` values used as the key of the column map. -/
structure ChunkPos where
  X : Int
  Z : Int
deriving DecidableEq

/-- Modelled from the spec: `level.Section`, the mutable container of
16×16×16 voxel state identifiers addressed by a local index in `[0, 4096)`.
The cells live behind a pointer, so a copy of a `Section` value writes to the
same cells. -/
structure Section where
  States : Int → BlocksState

/-- The section with cell `i` replaced by `v`. -/
def Section.put (s : Section) (i : Int) (v : BlocksState) : Section :=
  ⟨fun j => if j = i then v else s.States j⟩

/-- Modelled from the spec: `Section.SetBlock(i, v)` stores `v` in cell `i`;
an index outside `[0, 4096)` is a runtime fault of the storage (`none`). -/
def Section.SetBlock (s : Section) (i : Int) (v : BlocksState) : Option Section :=
  if 0 ≤ i ∧ i < 4096 then some (s.put i v) else none

/-- Modelled from the spec: `level.Chunk`, a column: its ordered sequence of
sections. -/
structure Chunk where
  Sections : List Section

/-- Go slice access `c.Sections[i]`: `none` is the index-out-of-range fault. -/
def Chunk.section? (c : Chunk) (i : Int) : Option Section :=
  if 0 ≤ i then c.Sections.get? i.toNat else none

/-- The column with `Sections[i]` replaced by `s`. -/
def Chunk.setSection (c : Chunk) (i : Int) (s : Section) : Chunk :=
  ⟨c.Sections.set i.toNat s⟩

/-- Modelled from the spec: `level.EmptyChunk(secs)`, a column of `secs` empty
sections; `make` with a negative length is a runtime fault (`none`). -/
def EmptyChunk (secs : Int) : Option Chunk :=
  if 0 ≤ secs then some ⟨List.replicate secs.toNat ⟨fun _ => 0⟩⟩ else none

/-- Modelled from the spec: the dimension metadata the tracker reads, the
world height and the minimum Y, both `int32`. -/
structure DimensionType where
  Height : Int
  MinY : Int

/-- Modelled from the spec: the part of `basic.Player` the tracker reads, the
active dimension's name and the dimension-type lookup
`WorldInfo.RegistryCodec.DimensionType.Find`. -/
structure Player where
  DimensionName : String
  Find : String → Option DimensionType

/-- One call of a user-supplied event callback, with its arguments. -/
inductive Call where
  | LoadChunk (pos : ChunkPos)
  | UnloadChunk (pos : ChunkPos)
  | BlockUpdate (x y z : Int) (blockID : BlocksState)
  | MultiBlockUpdate (x y z : Int) (block : BlocksState)
deriving DecidableEq

/-- A recorded callback invocation: the call and whether `ChunkLock` was
write-held at that moment. -/
structure Invocation where
  call : Call
  lockHeld : Bool
deriving DecidableEq

/-- `EventsListener` of events.go: four nullable callbacks. A callback returns
`none` for Go's `nil` error; its answer may depend on the invocations made so
far. -/
structure EventsListener where
  LoadChunk : Option (ChunkPos → List Invocation → Option Error)
  UnloadChunk : Option (ChunkPos → List Invocation → Option Error)
  BlockUpdate : Option (Int → Int → Int → BlocksState → List Invocation → Option Error)
  MultiBlockUpdate : Option (Int → Int → Int → BlocksState → List Invocation → Option Error)

/-- `World` of chunks.go. `Columns` is the Go map (absent key: `none`),
`ChunkLock` is true while the write lock is held, and `calls` is the log of
callback invocations made so far. -/
structure World where
  p : Player
  events : EventsListener
  Columns : ChunkPos → Option Chunk
  ChunkLock : Bool
  calls : List Invocation

/-- The ways a function of the tracker fails to return. -/
inductive Fault where
  | indexOutOfRange
  | negativeLen
  | deadlock
deriving DecidableEq

/-- `NewWorld`: an empty column map. -/
def NewWorld (p : Player) (events : EventsListener) : World :=
  { p := p, events := events, Columns := fun _ => none, ChunkLock := false, calls := [] }

/-- `w.ChunkLock.Lock()`: blocks for ever when the lock is already held. -/
def World.Lock (w : World) : Except Fault World :=
  if w.ChunkLock then .error .deadlock else .ok { w with ChunkLock := true }

/-- `w.ChunkLock.Unlock()`. -/
def World.Unlock (w : World) : World := { w with ChunkLock := false }

/-- `w.Columns[pos] = chunk`. -/
def World.store (w : World) (pos : ChunkPos) (chunk : Chunk) : World :=
  { w with Columns := fun k => if k = pos then some chunk else w.Columns k }

/-- `delete(w.Columns, pos)`. -/
def World.delete (w : World) (pos : ChunkPos) : World :=
  { w with Columns := fun k => if k = pos then none else w.Columns k }

/-- A call of a registered callback: its answer and the world with the
invocation logged. -/
def World.invoke (w : World) (call : Call) (cb : List Invocation → Option Error) :
    Option Error × World :=
  (cb w.calls, { w with calls := w.calls ++ [⟨call, w.ChunkLock⟩] })

/-- The dimension lookup `w.p.WorldInfo.RegistryCodec.DimensionType.Find(w.p.DimensionName)`. -/
def World.currentDimType (w : World) : Option DimensionType :=
  w.p.Find w.p.DimensionName

/-- The column key `level.ChunkPos{int32(pos.X >> 4), int32(pos.Z >> 4)}` of a
block position. -/
def columnOf (pos : Position) : ChunkPos :=
  ⟨int32 (sar pos.X 4), int32 (sar pos.Z 4)⟩

/-- The stored state of cell `i` of section `sIdx` of column `pos`, if any. -/
def World.cell (w : World) (pos : ChunkPos) (sIdx i : Int) : Option BlocksState :=
  match w.Columns pos with
  | none => none
  | some c =>
    match c.section? sIdx with
    | none => none
    | some sec => some (sec.States i)

/-! ## Packets -/

/-- A `ClientboundLevelChunkWithLight` packet as `packet.Scan(&pos, chunk)`
sees it: the scan fails with `scanErr`, or yields the column coordinate and
fills section `i` of the prepared chunk with `body i`. -/
structure LevelChunkPacket where
  scanErr : Option Error
  pos : ChunkPos
  body : Nat → Section

/-- The effect of `packet.Scan(&pos, chunk)` on a prepared chunk. -/
def LevelChunkPacket.Scan (packet : LevelChunkPacket) (chunk : Chunk) :
    Except Error (ChunkPos × Chunk) :=
  match packet.scanErr with
  | some err => .error err
  | none => .ok (packet.pos, ⟨(List.range chunk.Sections.length).map packet.body⟩)

/-- A `ClientboundForgetLevelChunk` packet. -/
structure ForgetLevelChunkPacket where
  scanErr : Option Error
  pos : ChunkPos

/-- A `ClientboundBlockUpdate` packet. -/
structure BlockUpdatePacket where
  scanErr : Option Error
  pos : Position
  ID : Int

/-- A `ClientboundSectionBlocksUpdate` packet. -/
structure SectionBlocksUpdatePacket where
  scanErr : Option Error
  pos : Int
  TrustEdges : Bool
  Blocks : List Int

/-! ## Operations of chunks.go -/

/-- `World.IsLoaded`. The read lock it takes is free whenever no handler is
running. -/
def IsLoaded (w : World) (pos : Position) : Bool :=
  match w.Columns (columnOf pos) with
  | none => false
  | some _ => true

/-- `World.onPlayerSpawn`: unload all chunks. -/
def onPlayerSpawn (w : World) : Option Error × World :=
  (none, { w with Columns := fun _ => none })

/-- `World.handleLevelChunkWithLightPacket`. -/
def handleLevelChunkWithLightPacket (w : World) (packet : LevelChunkPacket) :
    Except Fault (Option Error × World) :=
  match w.currentDimType with
  | none => .ok (some ("dimension type " ++ w.p.DimensionName ++ " not found"), w)
  | some currentDimType =>
    match EmptyChunk (Int.tdiv currentDimType.Height 16) with
    | none => .error .negativeLen
    | some chunk =>
      match packet.Scan chunk with
      | .error err => .ok (some err, w)
      | .ok (pos, chunk) =>
        match w.Lock with
        | .error e => .error e
        | .ok w =>
          let w := w.store pos chunk
          match w.events.LoadChunk with
          | some f =>
            match w.invoke (.LoadChunk pos) (f pos) with
            | (some err, w) => .ok (some err, w.Unlock)
            | (none, w) => .ok (none, w.Unlock)
          | none => .ok (none, w.Unlock)

/-- `World.handleForgetLevelChunkPacket`. -/
def handleForgetLevelChunkPacket (w : World) (packet : ForgetLevelChunkPacket) :
    Except Fault (Option Error × World) :=
  match packet.scanErr with
  | some err => .ok (some err, w)
  | none =>
    let pos := packet.pos
    let r : Option Error × World :=
      match w.events.UnloadChunk with
      | some f => w.invoke (.UnloadChunk pos) (f pos)
      | none => (none, w)
    match r.2.Lock with
    | .error e => .error e
    | .ok w => .ok (r.1, (w.delete pos).Unlock)

/-- `World.unaryBlockUpdate`. -/
def unaryBlockUpdate (w : World) (pos : Position) (bStateID : BlocksState) :
    Except Fault (Bool × World) :=
  match w.Lock with
  | .error e => .error e
  | .ok w =>
    let key : ChunkPos := columnOf pos
    match w.Columns key with
    | none => .ok (false, w.Unlock)
    | some c =>
      match w.currentDimType with
      | none => .ok (false, w.Unlock)
      | some currentDimType =>
        let sIdx := sar (int32 (int32 pos.Y - currentDimType.MinY)) 4
        let bIdx := sectionIdx (and64 pos.X 15) (and64 pos.Y 15) (and64 pos.Z 15)
        match c.section? sIdx with
        | none => .error .indexOutOfRange
        | some sec =>
          match sec.SetBlock bIdx bStateID with
          | none => .error .indexOutOfRange
          | some sec => .ok (true, (w.store key (c.setSection sIdx sec)).Unlock)

/-- The body of the `for _, b := range blocks` loop of
`World.multiBlockUpdate` for one record `b`, on the section the loop writes
to; `next` stands for the remaining iterations. -/
def multiBlockUpdateBody (b : Int) (sec : Section) (w : World)
    (next : Section → World → Except Fault (Bool × Section × World)) :
    Except Fault (Bool × Section × World) :=
  let bStateID := sar b 12
  let x := and64 (sar b 8) 0xf
  let z := and64 (sar b 4) 0xf
  let y := and64 b 0xf
  let bIdx := sectionIdx (and64 x 15) (and64 y 15) (and64 z 15)
  match sec.SetBlock bIdx bStateID with
  | none => .error .indexOutOfRange
  | some sec =>
    match w.events.MultiBlockUpdate with
    | some f =>
      match w.invoke (.MultiBlockUpdate x z y bStateID) (f x z y bStateID) with
      | (some _, w) => .ok (false, sec, w)
      | (none, w) => next sec w
    | none => next sec w

/-- The `for _, b := range blocks` loop of `World.multiBlockUpdate`: the body
for each record in turn, `true` when the range is exhausted. -/
def multiBlockUpdateLoop : List Int → Section → World → Except Fault (Bool × Section × World)
  | [], sec, w => .ok (true, sec, w)
  | b :: blocks, sec, w => multiBlockUpdateBody b sec w (multiBlockUpdateLoop blocks)

/-- `World.multiBlockUpdate`. The cells written through `section` are those of
`c.Sections[chunkY]`, stored back into the column when the loop ends. -/
def multiBlockUpdate (w : World) (chunkX chunkY chunkZ : Int) (blocks : List Int) :
    Except Fault (Bool × World) :=
  match w.Lock with
  | .error e => .error e
  | .ok w =>
    let key : ChunkPos := ⟨int32 chunkX, int32 chunkZ⟩
    match w.Columns key with
    | none => .ok (false, w.Unlock)
    | some c =>
      match c.section? chunkY with
      | none => .error .indexOutOfRange
      | some sec =>
        match multiBlockUpdateLoop blocks sec w with
        | .error e => .error e
        | .ok (applied, sec, w) => .ok (applied, (w.store key (c.setSection chunkY sec)).Unlock)

/-- `World.handleBlockUpdatePacket`. -/
def handleBlockUpdatePacket (w : World) (packet : BlockUpdatePacket) :
    Except Fault (Option Error × World) :=
  match packet.scanErr with
  | some err => .ok (some err, w)
  | none =>
    let pos := packet.pos
    match unaryBlockUpdate w pos packet.ID with
    | .error e => .error e
    | .ok (_, w) =>
      match w.events.BlockUpdate with
      | some f =>
        match w.invoke (.BlockUpdate pos.X pos.Y pos.Z packet.ID) (f pos.X pos.Y pos.Z packet.ID) with
        | (some err, w) => .ok (some err, w)
        | (none, w) => .ok (none, w)
      | none => .ok (none, w)

/-- `World.handleMultiBlockUpdatePacket`. -/
def handleMultiBlockUpdatePacket (w : World) (packet : SectionBlocksUpdatePacket) :
    Except Fault (Option Error × World) :=
  match packet.scanErr with
  | some err => .ok (some err, w)
  | none =>
    match decodeSectionPos packet.pos with
    | (chunkX, chunkY, chunkZ) =>
      match w.currentDimType with
      | none => .ok (some ("dimension type " ++ w.p.DimensionName ++ " not found"), w)
      | some currentDimType =>
        let chunkY := int64 (chunkY - sar currentDimType.MinY 4)
        match multiBlockUpdate w chunkX chunkY chunkZ packet.Blocks with
        | .error e => .error e
        | .ok (_, w) => .ok (none, w)

/-! ## Histories of load, unload and reset -/

/-- One operation of a history: a column load or unload whose packet scans,
or a reset. -/
inductive Op where
  | load (pos : ChunkPos) (body : Nat → Section)
  | unload (pos : ChunkPos)
  | reset

/-- The handler an operation stands for, applied to a world. -/
def Op.apply (w : World) : Op → Except Fault World
  | .load pos body => (handleLevelChunkWithLightPacket w ⟨none, pos, body⟩).map Prod.snd
  | .unload pos => (handleForgetLevelChunkPacket w ⟨none, pos⟩).map Prod.snd
  | .reset => .ok (onPlayerSpawn w).2

/-- Sequential application of a history, oldest operation first. -/
def runOps : World → List Op → Except Fault World
  | w, [] => .ok w
  | w, op :: ops =>
    match op.apply w with
    | .error e => .error e
    | .ok w => runOps w ops

/-- Whether an operation affects column `c`: a reset affects every column, a
load or unload only its own. -/
def Op.affects (c : ChunkPos) : Op → Bool
  | .load pos _ => decide (pos = c)
  | .unload pos => decide (pos = c)
  | .reset => true

/-- Whether the most recent operation of the history that affects column
`c` is a load; `init` when no operation affects it. -/
def mostRecentIsLoadFrom (init : Bool) (c : ChunkPos) (ops : List Op) : Bool :=
  match ops.reverse.find? (Op.affects c) with
  | some (.load _ _) => true
  | some _ => false
  | none => init

/-- Whether the most recent operation that affects column `c` is a load of it,
in a history that starts from the empty world. -/
def mostRecentIsLoad (c : ChunkPos) (ops : List Op) : Bool :=
  mostRecentIsLoadFrom false c ops

/-- The column a load packet yields under a dimension type. -/
def loadedChunk (dt : DimensionType) (packet : LevelChunkPacket) : Chunk :=
  ⟨(List.range (Int.tdiv dt.Height 16).toNat).map packet.body⟩

/-! ## Indices the block updates resolve -/

/-- The section index `unaryBlockUpdate` computes:
`(int32(pos.Y) - currentDimType.MinY) >> 4`. -/
def unarySectionIdx (dt : DimensionType) (pos : Position) : Int :=
  sar (int32 (int32 pos.Y - dt.MinY)) 4

/-- The local index `unaryBlockUpdate` computes:
`sectionIdx(pos.X&15, pos.Y&15, pos.Z&15)`. -/
def unaryBlockIdx (pos : Position) : Int :=
  sectionIdx (and64 pos.X 15) (and64 pos.Y 15) (and64 pos.Z 15)

/-- The local index `multiBlockUpdate` computes for a record `b`: with
`x, z, y = (b >> 8) & 0xf, (b >> 4) & 0xf, b & 0xf`, the value
`sectionIdx(x&15, y&15, z&15)`. -/
def recordBlockIdx (b : Int) : Int :=
  sectionIdx (and64 (and64 (sar b 8) 0xf) 15) (and64 (and64 b 0xf) 15)
    (and64 (and64 (sar b 4) 0xf) 15)

/-- The spec's `sectionLocalIndex(x, y, z) = ((y & 15) << 8) | ((z & 15) << 4) | (x & 15)`. -/
def sectionLocalIndex (x y z : Int) : Int :=
  or64 (or64 (shl64 (and64 y 15) 8) (shl64 (and64 z 15) 4)) (and64 x 15)

/-- The local index of a record under the spec's field layout:
`(Y << 8) | (Z << 4) | X` with `Z = (v >> 8) & 0xF`, `X = (v >> 4) & 0xF`,
`Y = v & 0xF`. -/
def specRecordIdx (v : Int) : Int :=
  or64 (or64 (shl64 (and64 v 0xF) 8) (shl64 (and64 (sar v 8) 0xF) 4)) (and64 (sar v 4) 0xF)

/-- The local index of a record under the layout of the code:
`(y << 8) | (z << 4) | x` with `x = (v >> 8) & 0xF`, `z = (v >> 4) & 0xF`,
`y = v & 0xF`. -/
def codeRecordIdx (v : Int) : Int :=
  or64 (or64 (shl64 (and64 v 0xF) 8) (shl64 (and64 (sar v 4) 0xF) 4)) (and64 (sar v 8) 0xF)

/-- The section after the records of a batch are written in order, each
record `v` storing `v >> 12` at `codeRecordIdx v`. -/
def applyRecords (sec : Section) (blocks : List Int) : Section :=
  blocks.foldl (fun s v => s.put (codeRecordIdx v) (sar v 12)) sec

/-! ## Sample worlds -/

/-- A player in a dimension of height 384 starting at Y = -64. -/
def samplePlayer : Player :=
  ⟨"overworld", fun name => if name = "overworld" then some ⟨384, -64⟩ else none⟩

/-- A listener with no callback registered. -/
def noEvents : EventsListener := ⟨none, none, none, none⟩

/-- A listener whose four callbacks all answer `r`. -/
def constEvents (r : Option Error) : EventsListener :=
  ⟨some (fun _ _ => r), some (fun _ _ => r), some (fun _ _ _ _ _ => r),
    some (fun _ _ _ _ _ => r)⟩

/-- A column of 24 sections whose cells all hold 0. -/
def sampleChunk : Chunk := ⟨List.replicate 24 ⟨fun _ => 0⟩⟩

/-- The world of `samplePlayer` with the one column (0, 0) loaded. -/
def sampleWorld (events : EventsListener) : World :=
  (NewWorld samplePlayer events).store ⟨0, 0⟩ sampleChunk

/-- The cell of a block-update result, if the update returned. -/
def resultCell (r : Except Fault (Bool × World)) (pos : ChunkPos) (sIdx i : Int) :
    Option BlocksState :=
  match r with
  | .error _ => none
  | .ok (_, w) => w.cell pos sIdx i

/-- The callback log of a handler result, if the handler returned. -/
def resultCalls {α : Type} (r : Except Fault (α × World)) : Option (List Invocation) :=
  match r with
  | .error _ => none
  | .ok (_, w) => some w.calls

/-- The value a handler returned, if it returned. -/
def resultValue {α : Type} (r : Except Fault (α × World)) : Option α :=
  match r with
  | .error _ => none
  | .ok (a, _) => some a

/-- The fault of a result, if it did not return. -/
def resultFault {α : Type} (r : Except Fault α) : Option Fault :=
  match r with
  | .error e => some e
  | .ok _ => none

/-! ## Batched updates: callback calls and section indices -/

/-- The call `w.events.MultiBlockUpdate(int(x), int(z), int(y), bStateID)` the
loop of `multiBlockUpdate` makes for a record `b`, with
`x, z, y = (b >> 8) & 0xf, (b >> 4) & 0xf, b & 0xf` and `bStateID = b >> 12`. -/
def recordCall (b : Int) : Call :=
  .MultiBlockUpdate (and64 (sar b 8) 0xf) (and64 (sar b 4) 0xf) (and64 b 0xf) (sar b 12)

/-- The answer of a `MultiBlockUpdate` callback to the call made for record
`b`, given the invocations logged so far. -/
def recordAnswer (f : Int → Int → Int → BlocksState → List Invocation → Option Error)
    (b : Int) (log : List Invocation) : Option Error :=
  f (and64 (sar b 8) 0xf) (and64 (sar b 4) 0xf) (and64 b 0xf) (sar b 12) log

/-- The call the spec's field decoding of a record `v` describes:
`x = (v >> 4) & 0xF`, `y = v & 0xF`, `z = (v >> 8) & 0xF`, `state = v >> 12`. -/
def specRecordCall (v : Int) : Call :=
  .MultiBlockUpdate (and64 (sar v 4) 0xF) (and64 v 0xF) (and64 (sar v 8) 0xF) (sar v 12)

/-- The `x` argument and the state argument of a `MultiBlockUpdate` call. -/
def Call.xAndState : Call → Option (Int × BlocksState)
  | .MultiBlockUpdate x _ _ block => some (x, block)
  | _ => none

/-- The section index `handleMultiBlockUpdatePacket` passes to
`multiBlockUpdate` for the absolute section `y >> 4` of a block at height `y`:
`chunkY - int(currentDimType.MinY>>4)`. -/
def batchedSectionIdx (dt : DimensionType) (y : Int) : Int :=
  int64 (sar y 4 - sar dt.MinY 4)

/-- A player whose dimension name is not in the registry. -/
def lostPlayer : Player := ⟨"the_void", fun _ => none⟩

/-! ## Machine integer lemmas -/

theorem int64_eq (v : Int) : int64 v = (v + 2 ^ 63) % 2 ^ 64 - 2 ^ 63 := by
  unfold int64 wrapSigned
  norm_num
  split <;> omega

theorem int32_eq (v : Int) : int32 v = (v + 2 ^ 31) % 2 ^ 32 - 2 ^ 31 := by
  unfold int32 wrapSigned
  norm_num
  split <;> omega

theorem int64_eq_self {v : Int} (h1 : -2 ^ 63 ≤ v) (h2 : v < 2 ^ 63) : int64 v = v := by
  rw [int64_eq]
  norm_num at *
  omega

theorem bits64_int64 (v : Int) : bits64 (int64 v) = bits64 v := by
  rw [int64_eq]
  unfold bits64
  norm_num
  omega

theorem bits64_natCast {n : Nat} (h : n < 2 ^ 64) : bits64 (n : Int) = n := by
  unfold bits64
  norm_num at *
  omega

/-- Masking with `2 ^ n - 1` -/
theorem and64_mask (a : Int) (n : Nat) (hn : n ≤ 63) :
    and64 a (2 ^ n - 1) = a % 2 ^ n := by
  have hpos : (0 : Int) < 2 ^ n := by positivity
  have hle : (2 : Int) ^ n ≤ 2 ^ 63 := pow_le_pow_right₀ (by norm_num) hn
  have hleN : (2 : Nat) ^ n ≤ 2 ^ 63 := Nat.pow_le_pow_right (by norm_num) hn
  have hm : bits64 (2 ^ n - 1 : Int) = 2 ^ n - 1 := by
    have : ((2 : Int) ^ n - 1) = ((2 ^ n - 1 : Nat) : Int) := by
      have := Nat.one_le_two_pow (n := n)
      push_cast [Nat.cast_sub this]; rfl
    rw [this]; apply bits64_natCast; omega
  unfold and64
  rw [hm, Nat.and_pow_two_sub_one_eq_mod]
  have hlt : bits64 a % 2 ^ n < 2 ^ n := Nat.mod_lt _ (by positivity)
  rw [int64_eq_self (by simp; omega) (by simp; omega)]
  unfold bits64
  simp only [Int.ofNat_eq_coe, Int.natCast_mod, Nat.cast_pow, Nat.cast_ofNat]
  rw [Int.toNat_of_nonneg (Int.emod_nonneg _ (by norm_num))]
  exact Int.emod_emod_of_dvd _ (pow_dvd_pow 2 (by omega))

theorem or64_of_bits {x y : Int} {a b i : Nat} (hx : bits64 x = 2 ^ i * a) (hy : bits64 y = b)
    (hb : b < 2 ^ i) : or64 x y = int64 ((2 ^ i * a + b : Nat) : Int) := by
  unfold or64
  rw [hx, hy, ← Nat.mul_add_lt_is_or hb]
  rfl

theorem packSectionPos_eq (cx cz sy : Int) :
    packSectionPos cx cz sy
      = int64 (2 ^ 42 * (cx % 2 ^ 22) + 2 ^ 20 * (cz % 2 ^ 22) + sy % 2 ^ 20) := by
  have hA := and64_mask cx 22 (by norm_num)
  have hB := and64_mask cz 22 (by norm_num)
  have hC := and64_mask sy 20 (by norm_num)
  norm_num at hA hB hC
  obtain ⟨A, hA'⟩ := Int.eq_ofNat_of_zero_le (Int.emod_nonneg cx (by norm_num : (4194304 : Int) ≠ 0))
  obtain ⟨B, hB'⟩ := Int.eq_ofNat_of_zero_le (Int.emod_nonneg cz (by norm_num : (4194304 : Int) ≠ 0))
  obtain ⟨C, hC'⟩ := Int.eq_ofNat_of_zero_le (Int.emod_nonneg sy (by norm_num : (1048576 : Int) ≠ 0))
  have hAlt : A < 4194304 := by have := Int.emod_lt_of_pos cx (by norm_num : (0 : Int) < 4194304); omega
  have hBlt : B < 4194304 := by have := Int.emod_lt_of_pos cz (by norm_num : (0 : Int) < 4194304); omega
  have hClt : C < 1048576 := by have := Int.emod_lt_of_pos sy (by norm_num : (0 : Int) < 1048576); omega
  unfold packSectionPos
  norm_num
  rw [hA, hB, hC, hA', hB', hC']
  have h1 : bits64 (shl64 (A : Int) 42) = 2 ^ 42 * A := by
    unfold shl64; rw [bits64_int64]; unfold bits64; norm_num; omega
  have h2 : bits64 (shl64 (B : Int) 20) = 2 ^ 20 * B := by
    unfold shl64; rw [bits64_int64]; unfold bits64; norm_num; omega
  have h3 : bits64 (C : Int) = C := bits64_natCast (by norm_num; omega)
  rw [or64_of_bits h1 h2 (by norm_num; omega)]
  have h4 : bits64 (int64 ((2 ^ 42 * A + 2 ^ 20 * B : Nat) : Int)) = 2 ^ 20 * (2 ^ 22 * A + B) := by
    rw [bits64_int64, bits64_natCast (by norm_num; omega)]; ring
  rw [or64_of_bits h4 h3 (by norm_num; omega)]
  have h5 : ((2 ^ 20 * (2 ^ 22 * A + B) + C : Nat) : Int)
      = 2 ^ 42 * (A : Int) + 2 ^ 20 * (B : Int) + (C : Int) := by
    push_cast
    ring
  rw [h5]
  norm_num

theorem and64_15 (a : Int) : and64 a 15 = a % 16 := by
  have h := and64_mask a 4 (by norm_num)
  norm_num at h
  exact h

theorem or64_local (a b c : Int) (ha0 : 0 ≤ a) (ha : a < 16) (hb0 : 0 ≤ b) (hb : b < 16)
    (hc0 : 0 ≤ c) (hc : c < 16) :
    or64 (or64 (shl64 a 8) (shl64 b 4)) c = 256 * a + 16 * b + c := by
  obtain ⟨A, rfl⟩ := Int.eq_ofNat_of_zero_le ha0
  obtain ⟨B, rfl⟩ := Int.eq_ofNat_of_zero_le hb0
  obtain ⟨C, rfl⟩ := Int.eq_ofNat_of_zero_le hc0
  have h1 : bits64 (shl64 (A : Int) 8) = 2 ^ 8 * A := by
    unfold shl64; rw [bits64_int64]; unfold bits64; norm_num; omega
  have h2 : bits64 (shl64 (B : Int) 4) = 2 ^ 4 * B := by
    unfold shl64; rw [bits64_int64]; unfold bits64; norm_num; omega
  have h3 : bits64 (C : Int) = C := bits64_natCast (by norm_num; omega)
  rw [or64_of_bits h1 h2 (by norm_num; omega)]
  have h4 : bits64 (int64 ((2 ^ 8 * A + 2 ^ 4 * B : Nat) : Int)) = 2 ^ 4 * (2 ^ 4 * A + B) := by
    rw [bits64_int64, bits64_natCast (by norm_num; omega)]; ring
  rw [or64_of_bits h4 h3 (by norm_num; omega)]
  rw [int64_eq_self (by norm_num; omega) (by norm_num; omega)]
  push_cast
  ring

theorem sectionIdx_local (x y z : Int) (hx0 : 0 ≤ x) (hx : x < 16) (hz0 : 0 ≤ z) (hz : z < 16) :
    sectionIdx x y z = 256 * (y % 16) + 16 * z + x := by
  unfold sectionIdx
  rw [and64_15]
  exact or64_local _ _ _ (Int.emod_nonneg _ (by norm_num)) (Int.emod_lt_of_pos _ (by norm_num))
    hz0 hz hx0 hx

theorem sectionLocalIndex_eq (x y z : Int) :
    sectionLocalIndex x y z = 256 * (y % 16) + 16 * (z % 16) + x % 16 := by
  unfold sectionLocalIndex
  rw [and64_15, and64_15, and64_15]
  exact or64_local _ _ _ (Int.emod_nonneg _ (by norm_num)) (Int.emod_lt_of_pos _ (by norm_num))
    (Int.emod_nonneg _ (by norm_num)) (Int.emod_lt_of_pos _ (by norm_num))
    (Int.emod_nonneg _ (by norm_num)) (Int.emod_lt_of_pos _ (by norm_num))

theorem codeRecordIdx_eq (v : Int) :
    codeRecordIdx v = 256 * (v % 16) + 16 * (sar v 4 % 16) + sar v 8 % 16 := by
  unfold codeRecordIdx
  rw [and64_15, and64_15, and64_15]
  exact or64_local _ _ _ (Int.emod_nonneg _ (by norm_num)) (Int.emod_lt_of_pos _ (by norm_num))
    (Int.emod_nonneg _ (by norm_num)) (Int.emod_lt_of_pos _ (by norm_num))
    (Int.emod_nonneg _ (by norm_num)) (Int.emod_lt_of_pos _ (by norm_num))

theorem recordBlockIdx_eq (b : Int) : recordBlockIdx b = codeRecordIdx b := by
  rw [codeRecordIdx_eq]
  unfold recordBlockIdx
  simp only [and64_15]
  rw [sectionIdx_local _ _ _ (Int.emod_nonneg _ (by norm_num)) (Int.emod_lt_of_pos _ (by norm_num))
    (Int.emod_nonneg _ (by norm_num)) (Int.emod_lt_of_pos _ (by norm_num))]
  omega

theorem codeRecordIdx_range (v : Int) : 0 ≤ codeRecordIdx v ∧ codeRecordIdx v < 4096 := by
  rw [codeRecordIdx_eq]
  omega

theorem unaryBlockIdx_eq (pos : Position) :
    unaryBlockIdx pos = 256 * (pos.Y % 16) + 16 * (pos.Z % 16) + pos.X % 16 := by
  unfold unaryBlockIdx
  simp only [and64_15]
  rw [sectionIdx_local _ _ _ (Int.emod_nonneg _ (by norm_num)) (Int.emod_lt_of_pos _ (by norm_num))
    (Int.emod_nonneg _ (by norm_num)) (Int.emod_lt_of_pos _ (by norm_num))]
  omega

theorem unaryBlockIdx_range (pos : Position) : 0 ≤ unaryBlockIdx pos ∧ unaryBlockIdx pos < 4096 := by
  rw [unaryBlockIdx_eq]
  omega

theorem World.unlock_lock {w : World} (h : w.ChunkLock = false) :
    World.Unlock { w with ChunkLock := true } = w := by
  cases w
  simp only [World.Unlock] at *
  subst h
  rfl

/-! ## Column bookkeeping: load, unload, reset -/

theorem mostRecentIsLoadFrom_cons (init : Bool) (c : ChunkPos) (op : Op) (ops : List Op) :
    mostRecentIsLoadFrom init c (op :: ops)
      = mostRecentIsLoadFrom (mostRecentIsLoadFrom init c [op]) c ops := by
  unfold mostRecentIsLoadFrom
  simp only [List.reverse_cons, List.find?_append, List.reverse_nil, List.nil_append]
  cases h : List.find? (Op.affects c) ops.reverse with
  | none => simp
  | some o => cases o <;> simp

theorem World.Lock_of_unlocked {w : World} (h : w.ChunkLock = false) :
    w.Lock = .ok { w with ChunkLock := true } := by
  simp [World.Lock, h]

theorem handleLevelChunkWithLightPacket_ok (w : World) (packet : LevelChunkPacket)
    (dt : DimensionType) (hdim : w.currentDimType = some dt) (hh : 0 ≤ dt.Height)
    (hscan : packet.scanErr = none) (hlock : w.ChunkLock = false) :
    handleLevelChunkWithLightPacket w packet
      = .ok (w.events.LoadChunk.bind (fun f => f packet.pos w.calls),
          { p := w.p, events := w.events,
            Columns := fun k => if k = packet.pos then some (loadedChunk dt packet) else w.Columns k,
            ChunkLock := false,
            calls := w.calls ++ (match w.events.LoadChunk with
              | none => []
              | some _ => [⟨.LoadChunk packet.pos, true⟩]) }) := by
  have hsec : 0 ≤ Int.tdiv dt.Height 16 := Int.tdiv_nonneg hh (by norm_num)
  simp only [handleLevelChunkWithLightPacket, hdim, EmptyChunk, hsec, if_true,
    LevelChunkPacket.Scan, hscan, World.Lock_of_unlocked hlock, loadedChunk]
  cases hcb : w.events.LoadChunk with
  | none => simp [World.store, hcb, World.Unlock]
  | some f =>
    simp only [World.store, hcb, World.Unlock, World.invoke, Option.bind]
    cases hr : f packet.pos w.calls <;> simp

theorem handleForgetLevelChunkPacket_ok (w : World) (packet : ForgetLevelChunkPacket)
    (hscan : packet.scanErr = none) (hlock : w.ChunkLock = false) :
    handleForgetLevelChunkPacket w packet
      = .ok (w.events.UnloadChunk.bind (fun f => f packet.pos w.calls),
          { p := w.p, events := w.events,
            Columns := fun k => if k = packet.pos then none else w.Columns k,
            ChunkLock := false,
            calls := w.calls ++ (match w.events.UnloadChunk with
              | none => []
              | some _ => [⟨.UnloadChunk packet.pos, false⟩]) }) := by
  simp only [handleForgetLevelChunkPacket, hscan]
  cases hcb : w.events.UnloadChunk with
  | none => simp [World.Lock, hlock, World.delete, World.Unlock]
  | some f => simp [World.Lock, hlock, World.delete, World.Unlock, World.invoke]

theorem Op.apply_spec (w : World) (dt : DimensionType) (hdim : w.currentDimType = some dt)
    (hh : 0 ≤ dt.Height) (hlock : w.ChunkLock = false) (op : Op) :
    ∃ w', op.apply w = .ok w' ∧ w'.p = w.p ∧ w'.ChunkLock = false ∧
      ∀ c, (w'.Columns c).isSome = mostRecentIsLoadFrom (w.Columns c).isSome c [op] := by
  cases op with
  | load pos body =>
    rw [Op.apply, handleLevelChunkWithLightPacket_ok w _ dt hdim hh rfl hlock]
    refine ⟨_, rfl, rfl, rfl, ?_⟩
    intro c
    by_cases hc : pos = c
    · simp [mostRecentIsLoadFrom, Op.affects, hc]
    · have hc' : ¬ c = pos := fun h => hc h.symm
      simp [mostRecentIsLoadFrom, Op.affects, hc, hc']
  | unload pos =>
    rw [Op.apply, handleForgetLevelChunkPacket_ok w _ rfl hlock]
    refine ⟨_, rfl, rfl, rfl, ?_⟩
    intro c
    by_cases hc : pos = c
    · simp [mostRecentIsLoadFrom, Op.affects, hc]
    · have hc' : ¬ c = pos := fun h => hc h.symm
      simp [mostRecentIsLoadFrom, Op.affects, hc, hc']
  | reset =>
    exact ⟨_, rfl, rfl, hlock, fun c => by simp [onPlayerSpawn, mostRecentIsLoadFrom, Op.affects]⟩

theorem runOps_spec (ops : List Op) : ∀ (w : World) (dt : DimensionType),
    w.currentDimType = some dt → 0 ≤ dt.Height → w.ChunkLock = false →
    ∃ w', runOps w ops = .ok w' ∧ w'.p = w.p ∧ w'.ChunkLock = false ∧
      ∀ c, (w'.Columns c).isSome = mostRecentIsLoadFrom (w.Columns c).isSome c ops := by
  induction ops with
  | nil =>
    intro w dt _ _ hlock
    exact ⟨w, rfl, rfl, hlock, fun c => by simp [mostRecentIsLoadFrom]⟩
  | cons op ops ih =>
    intro w dt hdim hh hlock
    obtain ⟨w1, h1, hp1, hl1, hc1⟩ := Op.apply_spec w dt hdim hh hlock op
    have hdim1 : w1.currentDimType = some dt := by
      simpa [World.currentDimType, hp1] using hdim
    obtain ⟨w2, h2, hp2, hl2, hc2⟩ := ih w1 dt hdim1 hh hl1
    refine ⟨w2, by simp [runOps, h1, h2], hp2.trans hp1, hl2, fun c => ?_⟩
    rw [hc2 c, hc1 c, ← mostRecentIsLoadFrom_cons]

theorem IsLoaded_eq_isSome (w : World) (pos : Position) :
    IsLoaded w pos = (w.Columns (columnOf pos)).isSome := by
  unfold IsLoaded
  cases w.Columns (columnOf pos) <;> rfl

/-- C1: after any history of column loads, column unloads and resets applied
in order to a new (empty) world whose dimension resolves, whatever the
callbacks answer, the history runs to the end and `IsLoaded pos` is true
exactly when the most recent operation affecting the column of `pos` is a load
of it; after a further reset `IsLoaded` is false everywhere. -/
theorem isLoaded_reflects_most_recent_operation (p : Player) (events : EventsListener)
    (dt : DimensionType) (hdim : p.Find p.DimensionName = some dt) (hh : 0 ≤ dt.Height)
    (ops : List Op) :
    ∃ w, runOps (NewWorld p events) ops = .ok w ∧
      (∀ pos, IsLoaded w pos = mostRecentIsLoad (columnOf pos) ops) ∧
      (∀ pos, IsLoaded (onPlayerSpawn w).2 pos = false) := by
  obtain ⟨w, hrun, _, _, hcols⟩ := runOps_spec ops (NewWorld p events) dt hdim hh rfl
  refine ⟨w, hrun, fun pos => ?_, fun pos => rfl⟩
  rw [IsLoaded_eq_isSome, hcols]
  rfl

/-! ## Batched block updates -/

theorem Section.SetBlock_of_range (s : Section) {i : Int} (v : BlocksState)
    (h : 0 ≤ i ∧ i < 4096) : s.SetBlock i v = some (s.put i v) := by
  unfold Section.SetBlock
  rw [if_pos h]

theorem applyRecords_take_succ (sec : Section) (b : Int) (blocks : List Int) (n : Nat) :
    applyRecords sec ((b :: blocks).take (n + 1))
      = applyRecords (sec.put (codeRecordIdx b) (sar b 12)) (blocks.take n) := by
  simp [applyRecords]

/-- What the loop of `multiBlockUpdate` returns: the records of a prefix of
the batch written in order, the whole batch when the loop reports `true`. -/
theorem multiBlockUpdateLoop_spec (blocks : List Int) : ∀ (sec : Section) (w : World),
    ∃ n applied w', n ≤ blocks.length ∧
      multiBlockUpdateLoop blocks sec w = .ok (applied, applyRecords sec (blocks.take n), w') ∧
      (applied = true → n = blocks.length) ∧
      ((∀ f, w.events.MultiBlockUpdate = some f → ∀ x y z st tr, f x y z st tr = none) →
        applied = true) ∧
      w'.p = w.p ∧ w'.events = w.events ∧ w'.Columns = w.Columns ∧
      w'.ChunkLock = w.ChunkLock := by
  induction blocks with
  | nil =>
    intro sec w
    exact ⟨0, true, w, le_refl _, rfl, fun _ => rfl, fun _ => rfl, rfl, rfl, rfl, rfl⟩
  | cons b blocks ih =>
    intro sec w
    have hidx := recordBlockIdx_eq b
    unfold recordBlockIdx at hidx
    unfold multiBlockUpdateLoop multiBlockUpdateBody
    simp only [hidx, Section.SetBlock_of_range sec (sar b 12) (codeRecordIdx_range b)]
    cases hcb : w.events.MultiBlockUpdate with
    | none =>
      obtain ⟨n, applied, w', hn, hrun, hall, hnone, hp, he, hc, hl⟩ :=
        ih (sec.put (codeRecordIdx b) (sar b 12)) w
      refine ⟨n + 1, applied, w', by simpa using hn, ?_, ?_,
        fun _ => hnone (fun f hf => by rw [hcb] at hf; exact Option.noConfusion hf),
        hp, he, hc, hl⟩
      · rw [applyRecords_take_succ]; exact hrun
      · intro h; simp [hall h]
    | some f =>
      simp only [World.invoke]
      cases hr : f (and64 (sar b 8) 0xf) (and64 (sar b 4) 0xf) (and64 b 0xf) (sar b 12) w.calls with
      | some err =>
        refine ⟨1, false, { w with calls := w.calls ++ [⟨.MultiBlockUpdate (and64 (sar b 8) 0xf)
          (and64 (sar b 4) 0xf) (and64 b 0xf) (sar b 12), w.ChunkLock⟩] },
          by simp, ?_, by simp, ?_, rfl, rfl, rfl, rfl⟩
        · simp [applyRecords]
        · intro hok
          rw [hok f rfl] at hr
          exact Option.noConfusion hr
      | none =>
        simp only []
        obtain ⟨n, applied, w', hn, hrun, hall, hnone, hp, he, hc, hl⟩ :=
          ih (sec.put (codeRecordIdx b) (sar b 12))
            { w with calls := w.calls ++ [⟨.MultiBlockUpdate (and64 (sar b 8) 0xf)
              (and64 (sar b 4) 0xf) (and64 b 0xf) (sar b 12), w.ChunkLock⟩] }
        refine ⟨n + 1, applied, w', by simpa using hn, ?_, ?_,
          fun hok => hnone (fun g hg => hok g (by rw [← hcb]; exact hg)), hp, he, hc, hl⟩
        · rw [applyRecords_take_succ]; exact hrun
        · intro h; simp [hall h]

/-! ## Single block updates and address decoding -/

theorem Chunk.section?_nonneg {c : Chunk} {i : Int} {sec : Section}
    (h : c.section? i = some sec) : 0 ≤ i := by
  unfold Chunk.section? at h
  by_contra hneg
  rw [if_neg hneg] at h
  exact Option.noConfusion h

theorem Chunk.section?_setSection_self {c : Chunk} {i : Int} {sec : Section} (s : Section)
    (h : c.section? i = some sec) : (c.setSection i s).section? i = some s := by
  have hi := Chunk.section?_nonneg h
  unfold Chunk.section? at h
  rw [if_pos hi] at h
  have hlt : i.toNat < c.Sections.length := by
    by_contra hge
    rw [List.get?_eq_none.mpr (by omega)] at h
    exact Option.noConfusion h
  unfold Chunk.section? Chunk.setSection
  rw [if_pos hi]
  simp [hlt]

theorem Chunk.section?_setSection_ne (c : Chunk) {i j : Int} (s : Section) (hi : 0 ≤ i)
    (hne : j ≠ i) : (c.setSection i s).section? j = c.section? j := by
  unfold Chunk.section? Chunk.setSection
  by_cases hj : 0 ≤ j
  · rw [if_pos hj, if_pos hj]
    have : i.toNat ≠ j.toNat := by omega
    simp [List.getElem?_set_ne this]
  · rw [if_neg hj, if_neg hj]

/-- The result of `unaryBlockUpdate` on a loaded column with a resolved
dimension and a section index inside the column. -/
theorem unaryBlockUpdate_ok (w : World) (pos : Position) (s : BlocksState)
    (dt : DimensionType) (c : Chunk) (sec : Section) (hlock : w.ChunkLock = false)
    (hdim : w.currentDimType = some dt) (hcol : w.Columns (columnOf pos) = some c)
    (hsec : c.section? (unarySectionIdx dt pos) = some sec) :
    unaryBlockUpdate w pos s
      = .ok (true,
          { p := w.p, events := w.events,
            Columns := fun k => if k = columnOf pos
              then some (c.setSection (unarySectionIdx dt pos) (sec.put (unaryBlockIdx pos) s))
              else w.Columns k,
            ChunkLock := false, calls := w.calls }) := by
  have hset := Section.SetBlock_of_range sec s (unaryBlockIdx_range pos)
  unfold unarySectionIdx at hsec
  unfold unaryBlockIdx at hset
  unfold unaryBlockUpdate
  simp only [World.Lock_of_unlocked hlock, hcol, World.currentDimType] at hdim ⊢
  simp only [hdim, hsec, hset]
  rfl

/-- The result of `unaryBlockUpdate` when the column of the position is not
in the column map. -/
theorem unaryBlockUpdate_absent (w : World) (pos : Position) (s : BlocksState)
    (hlock : w.ChunkLock = false) (hcol : w.Columns (columnOf pos) = none) :
    unaryBlockUpdate w pos s = .ok (false, w) := by
  unfold unaryBlockUpdate
  simp only [World.Lock_of_unlocked hlock, hcol, World.unlock_lock hlock]

/-- C2: for column coordinates in `[-2^21, 2^21)` and a section Y in
`[-2^19, 2^19)`, the decoder at the head of `handleMultiBlockUpdatePacket`
recovers exactly `(columnX, sectionY, columnZ)` from the packed 64-bit section
identifier. -/
theorem decodeSectionPos_packSectionPos (cx cz sy : Int)
    (hx1 : -2 ^ 21 ≤ cx) (hx2 : cx < 2 ^ 21) (hz1 : -2 ^ 21 ≤ cz) (hz2 : cz < 2 ^ 21)
    (hy1 : -2 ^ 19 ≤ sy) (hy2 : sy < 2 ^ 19) :
    decodeSectionPos (packSectionPos cx cz sy) = (cx, sy, cz) := by
  rw [packSectionPos_eq]
  unfold decodeSectionPos sar shl64
  simp only [int64_eq]
  norm_num at *
  refine ⟨?_, ?_, ?_⟩ <;> omega

/-- C2 at the spec's example: the packed identifier of column (-1, 5),
section 3 decodes to chunkX = -1, chunkY = 3, chunkZ = 5. -/
theorem decodeSectionPos_packSectionPos_witness :
    decodeSectionPos (packSectionPos (-1) 5 3) = (-1, 3, 5) :=
  decodeSectionPos_packSectionPos (-1) 5 3 (by decide) (by decide) (by decide) (by decide)
    (by decide) (by decide)

set_option maxRecDepth 100000 in
/-- C4, as stated, fails: `sectionIdx` does not mask `x`, so at
`(x, y, z) = (4096, 0, 0)` it returns 4096, which is neither the masked index
nor below 4096. -/
theorem sectionIdx_unmasked_counterexample :
    sectionIdx 4096 0 0 = 4096 ∧ sectionLocalIndex 4096 0 0 = 0 ∧
      sectionIdx 4096 0 0 ≠ sectionLocalIndex 4096 0 0 ∧ ¬ sectionIdx 4096 0 0 < 4096 := by
  decide

/-- C4, amended: for every integer `y` and all `x`, `z` in `[0, 16)`,
`sectionIdx x y z` equals `((y & 15) << 8) | ((z & 15) << 4) | (x & 15)` and
lies in `[0, 4096)`. -/
theorem sectionIdx_eq_sectionLocalIndex (x y z : Int) (hx0 : 0 ≤ x) (hx : x < 16)
    (hz0 : 0 ≤ z) (hz : z < 16) :
    sectionIdx x y z = sectionLocalIndex x y z ∧
      0 ≤ sectionIdx x y z ∧ sectionIdx x y z < 4096 := by
  rw [sectionIdx_local x y z hx0 hx hz0 hz, sectionLocalIndex_eq]
  refine ⟨?_, ?_, ?_⟩ <;> omega

/-- C4, amended, at `(x, y, z) = (3, -5, 7)`. -/
theorem sectionIdx_eq_sectionLocalIndex_witness :
    sectionIdx 3 (-5) 7 = sectionLocalIndex 3 (-5) 7 ∧
      0 ≤ sectionIdx 3 (-5) 7 ∧ sectionIdx 3 (-5) 7 < 4096 :=
  sectionIdx_eq_sectionLocalIndex 3 (-5) 7 (by decide) (by decide) (by decide) (by decide)

/-- C5: `unaryBlockUpdate` on a position whose column is not in the column
map returns `false` and the very same world, so a load of that column handled
next stores exactly the column the load packet carries. -/
theorem unaryBlockUpdate_unloaded_leaves_no_trace (w : World) (pos : Position)
    (s : BlocksState) (hlock : w.ChunkLock = false)
    (hcol : w.Columns (columnOf pos) = none) :
    unaryBlockUpdate w pos s = .ok (false, w) ∧
      ∀ (packet : LevelChunkPacket) (dt : DimensionType),
        w.currentDimType = some dt → 0 ≤ dt.Height → packet.scanErr = none →
        packet.pos = columnOf pos →
        ∃ err w',
          (unaryBlockUpdate w pos s).bind
              (fun r => handleLevelChunkWithLightPacket r.2 packet) = .ok (err, w') ∧
            w'.Columns (columnOf pos) = some (loadedChunk dt packet) := by
  have h := unaryBlockUpdate_absent w pos s hlock hcol
  refine ⟨h, fun packet dt hdim hh hscan hpos => ?_⟩
  rw [h]
  refine ⟨_, _, handleLevelChunkWithLightPacket_ok w packet dt hdim hh hscan hlock, ?_⟩
  simp [hpos]

/-! ## Instances and evaluations -/

/-- C5 at a new world (no column loaded) and the block (1, 2, 3). -/
theorem unaryBlockUpdate_unloaded_leaves_no_trace_witness :
    unaryBlockUpdate (NewWorld samplePlayer noEvents) ⟨1, 2, 3⟩ 7
        = .ok (false, NewWorld samplePlayer noEvents) ∧
      ∀ (packet : LevelChunkPacket) (dt : DimensionType),
        (NewWorld samplePlayer noEvents).currentDimType = some dt → 0 ≤ dt.Height →
        packet.scanErr = none → packet.pos = columnOf ⟨1, 2, 3⟩ →
        ∃ err w',
          (unaryBlockUpdate (NewWorld samplePlayer noEvents) ⟨1, 2, 3⟩ 7).bind
              (fun r => handleLevelChunkWithLightPacket r.2 packet) = .ok (err, w') ∧
            w'.Columns (columnOf ⟨1, 2, 3⟩) = some (loadedChunk dt packet) :=
  unaryBlockUpdate_unloaded_leaves_no_trace (NewWorld samplePlayer noEvents) ⟨1, 2, 3⟩ 7 rfl rfl

/-- C6: on a loaded column, with the dimension resolved and the section index
inside the column, `unaryBlockUpdate` returns `true`; afterwards the cell at
the block's local index of that section of that column holds the new state,
every other cell of every section of every column is as before, and so are
the set of loaded columns, the callback log and the lock. -/
theorem unaryBlockUpdate_sets_exactly_one_cell (w : World) (pos : Position) (s : BlocksState)
    (dt : DimensionType) (c : Chunk) (sec : Section) (hlock : w.ChunkLock = false)
    (hdim : w.currentDimType = some dt) (hcol : w.Columns (columnOf pos) = some c)
    (hsec : c.section? (unarySectionIdx dt pos) = some sec) :
    ∃ w', unaryBlockUpdate w pos s = .ok (true, w') ∧
      unaryBlockIdx pos = sectionIdx (and64 pos.X 15) (and64 pos.Y 15) (and64 pos.Z 15) ∧
      w'.cell (columnOf pos) (unarySectionIdx dt pos) (unaryBlockIdx pos) = some s ∧
      (∀ k i j, (k ≠ columnOf pos ∨ i ≠ unarySectionIdx dt pos ∨ j ≠ unaryBlockIdx pos) →
        w'.cell k i j = w.cell k i j) ∧
      (∀ k, (w'.Columns k).isSome = (w.Columns k).isSome) ∧
      (∀ k, (w'.Columns k).map (fun c => c.Sections.length)
        = (w.Columns k).map (fun c => c.Sections.length)) ∧
      w'.p = w.p ∧ w'.events = w.events ∧ w'.calls = w.calls ∧ w'.ChunkLock = false := by
  refine ⟨_, unaryBlockUpdate_ok w pos s dt c sec hlock hdim hcol hsec, rfl, ?_, ?_, ?_, ?_,
    rfl, rfl, rfl, rfl⟩
  · simp [World.cell, Chunk.section?_setSection_self _ hsec, Section.put]
  · intro k i j hne
    by_cases hk : k = columnOf pos
    · subst hk
      by_cases hi : i = unarySectionIdx dt pos
      · subst hi
        have hj : j ≠ unaryBlockIdx pos := by
          rcases hne with h | h | h
          · exact absurd rfl h
          · exact absurd rfl h
          · exact h
        simp [World.cell, Chunk.section?_setSection_self _ hsec, Section.put, hcol, hsec, hj]
      · simp [World.cell, hcol,
          Chunk.section?_setSection_ne c _ (Chunk.section?_nonneg hsec) hi]
    · simp [World.cell, hk]
  · intro k
    by_cases hk : k = columnOf pos
    · subst hk; simp [hcol]
    · simp [hk]
  · intro k
    by_cases hk : k = columnOf pos
    · subst hk; simp [hcol, Chunk.setSection]
    · simp [hk]

/-- C6 at the sample world: the block (1, 2, 3) of the loaded column (0, 0). -/
theorem unaryBlockUpdate_sets_exactly_one_cell_witness :
    ∃ w', unaryBlockUpdate (sampleWorld noEvents) ⟨1, 2, 3⟩ 7 = .ok (true, w') ∧
      unaryBlockIdx ⟨1, 2, 3⟩ = sectionIdx (and64 1 15) (and64 2 15) (and64 3 15) ∧
      w'.cell (columnOf ⟨1, 2, 3⟩) (unarySectionIdx ⟨384, -64⟩ ⟨1, 2, 3⟩)
        (unaryBlockIdx ⟨1, 2, 3⟩) = some 7 ∧
      (∀ k i j, (k ≠ columnOf ⟨1, 2, 3⟩ ∨ i ≠ unarySectionIdx ⟨384, -64⟩ ⟨1, 2, 3⟩ ∨
          j ≠ unaryBlockIdx ⟨1, 2, 3⟩) →
        w'.cell k i j = (sampleWorld noEvents).cell k i j) ∧
      (∀ k, (w'.Columns k).isSome = ((sampleWorld noEvents).Columns k).isSome) ∧
      (∀ k, (w'.Columns k).map (fun c => c.Sections.length)
        = ((sampleWorld noEvents).Columns k).map (fun c => c.Sections.length)) ∧
      w'.p = (sampleWorld noEvents).p ∧ w'.events = (sampleWorld noEvents).events ∧
      w'.calls = (sampleWorld noEvents).calls ∧ w'.ChunkLock = false :=
  unaryBlockUpdate_sets_exactly_one_cell (sampleWorld noEvents) ⟨1, 2, 3⟩ 7 ⟨384, -64⟩
    sampleChunk ⟨fun _ => 0⟩ rfl rfl rfl rfl

/-- C1 at a history of five operations on the sample player's new world. -/
theorem isLoaded_reflects_most_recent_operation_witness :
    ∃ w, runOps (NewWorld samplePlayer noEvents)
        [.load ⟨0, 0⟩ (fun _ => ⟨fun _ => 0⟩), .unload ⟨0, 0⟩,
          .load ⟨1, 0⟩ (fun _ => ⟨fun _ => 0⟩), .reset,
          .load ⟨2, 3⟩ (fun _ => ⟨fun _ => 0⟩)] = .ok w ∧
      (∀ pos, IsLoaded w pos = mostRecentIsLoad (columnOf pos)
        [.load ⟨0, 0⟩ (fun _ => ⟨fun _ => 0⟩), .unload ⟨0, 0⟩,
          .load ⟨1, 0⟩ (fun _ => ⟨fun _ => 0⟩), .reset,
          .load ⟨2, 3⟩ (fun _ => ⟨fun _ => 0⟩)]) ∧
      (∀ pos, IsLoaded (onPlayerSpawn w).2 pos = false) :=
  isLoaded_reflects_most_recent_operation samplePlayer noEvents ⟨384, -64⟩ rfl (by decide) _

set_option maxRecDepth 100000 in
/-- C3, as stated, fails: for the record `v = 28688` (state 7, bits 4 to 7
equal to 1) the spec's layout gives the local index 1, but `multiBlockUpdate`
writes state 7 to cell 16 and leaves cell 1 at its old state 0. -/
theorem multiBlockUpdate_spec_layout_counterexample :
    specRecordIdx 28688 = 1 ∧ sar 28688 12 = 7 ∧
      resultCell (multiBlockUpdate (sampleWorld noEvents) 0 0 0 [28688]) ⟨0, 0⟩ 0
        (specRecordIdx 28688) = some 0 ∧
      resultCell (multiBlockUpdate (sampleWorld noEvents) 0 0 0 [28688]) ⟨0, 0⟩ 0 16
        = some 7 := by
  decide

set_option maxRecDepth 100000 in
/-- C7 fails on the code: with no column loaded `unaryBlockUpdate` returns
`false` for the block (1, 2, 3), yet `handleBlockUpdatePacket` invokes the
registered `BlockUpdate` callback once for that packet. -/
theorem handleBlockUpdatePacket_invokes_callback_when_not_applied :
    resultValue (unaryBlockUpdate (NewWorld samplePlayer (constEvents none)) ⟨1, 2, 3⟩ 7)
        = some false ∧
      resultCalls (handleBlockUpdatePacket (NewWorld samplePlayer (constEvents none))
        ⟨none, ⟨1, 2, 3⟩, 7⟩) = some [⟨.BlockUpdate 1 2 3 7, false⟩] := by
  decide

set_option maxRecDepth 100000 in
/-- C8 fails on the code for the batched patch: the `MultiBlockUpdate`
callback is invoked and answers the error "boom", and
`handleMultiBlockUpdatePacket` returns no error; the other three handlers
return the error of their callback. -/
theorem handleMultiBlockUpdatePacket_swallows_callback_error :
    resultCalls (handleMultiBlockUpdatePacket (sampleWorld (constEvents (some "boom")))
        ⟨none, packSectionPos 0 0 (-4), false, [28688]⟩)
        = some [⟨.MultiBlockUpdate 0 1 0 7, true⟩] ∧
      resultValue (handleMultiBlockUpdatePacket (sampleWorld (constEvents (some "boom")))
        ⟨none, packSectionPos 0 0 (-4), false, [28688]⟩) = some none ∧
      resultValue (handleLevelChunkWithLightPacket (sampleWorld (constEvents (some "boom")))
        ⟨none, ⟨0, 0⟩, fun _ => ⟨fun _ => 0⟩⟩) = some (some "boom") ∧
      resultValue (handleForgetLevelChunkPacket (sampleWorld (constEvents (some "boom")))
        ⟨none, ⟨0, 0⟩⟩) = some (some "boom") ∧
      resultValue (handleBlockUpdatePacket (sampleWorld (constEvents (some "boom")))
        ⟨none, ⟨1, 2, 3⟩, 7⟩) = some (some "boom") := by
  decide

set_option maxRecDepth 100000 in
/-- C9 fails on the code: with column (0, 0) loaded with 24 sections, a
section index of 24 or -1 makes both `unaryBlockUpdate` and `multiBlockUpdate`
stop with an index-out-of-range fault instead of returning `false`, and so do
the two packet handlers that call them. -/
theorem blockUpdate_section_out_of_range_faults :
    resultFault (unaryBlockUpdate (sampleWorld noEvents) ⟨0, 320, 0⟩ 5)
        = some .indexOutOfRange ∧
      resultFault (unaryBlockUpdate (sampleWorld noEvents) ⟨0, -65, 0⟩ 5)
        = some .indexOutOfRange ∧
      resultFault (multiBlockUpdate (sampleWorld noEvents) 0 24 0 [])
        = some .indexOutOfRange ∧
      resultFault (multiBlockUpdate (sampleWorld noEvents) 0 (-1) 0 [])
        = some .indexOutOfRange ∧
      resultFault (handleBlockUpdatePacket (sampleWorld noEvents) ⟨none, ⟨0, 320, 0⟩, 5⟩)
        = some .indexOutOfRange ∧
      resultFault (handleMultiBlockUpdatePacket (sampleWorld noEvents)
        ⟨none, packSectionPos 0 0 20, false, []⟩) = some .indexOutOfRange := by
  decide

set_option maxRecDepth 100000 in
/-- C10 fails on the code: the `LoadChunk` callback of a column load and the
`MultiBlockUpdate` callback of a batched patch are invoked while `ChunkLock`
is write-held; the `UnloadChunk` and `BlockUpdate` callbacks are invoked with
the lock free. -/
theorem callbacks_invoked_under_write_lock :
    resultCalls (handleLevelChunkWithLightPacket (NewWorld samplePlayer (constEvents none))
        ⟨none, ⟨0, 0⟩, fun _ => ⟨fun _ => 0⟩⟩) = some [⟨.LoadChunk ⟨0, 0⟩, true⟩] ∧
      resultCalls (handleMultiBlockUpdatePacket (sampleWorld (constEvents none))
        ⟨none, packSectionPos 0 0 (-4), false, [28688]⟩)
        = some [⟨.MultiBlockUpdate 0 1 0 7, true⟩] ∧
      resultCalls (handleForgetLevelChunkPacket (sampleWorld (constEvents none))
        ⟨none, ⟨0, 0⟩⟩) = some [⟨.UnloadChunk ⟨0, 0⟩, false⟩] ∧
      resultCalls (handleBlockUpdatePacket (sampleWorld (constEvents none))
        ⟨none, ⟨1, 2, 3⟩, 7⟩) = some [⟨.BlockUpdate 1 2 3 7, false⟩] := by
  decide

/-! ## The loop of the batched update: records written and calls made -/

theorem multiBlockUpdateLoop_cons (b : Int) (blocks : List Int) (sec : Section) (w : World) :
    multiBlockUpdateLoop (b :: blocks) sec w
      = match w.events.MultiBlockUpdate with
        | some f =>
          match f (and64 (sar b 8) 0xf) (and64 (sar b 4) 0xf) (and64 b 0xf) (sar b 12) w.calls with
          | some _ => .ok (false, sec.put (codeRecordIdx b) (sar b 12),
              { w with calls := w.calls ++ [⟨recordCall b, w.ChunkLock⟩] })
          | none => multiBlockUpdateLoop blocks (sec.put (codeRecordIdx b) (sar b 12))
              { w with calls := w.calls ++ [⟨recordCall b, w.ChunkLock⟩] }
        | none => multiBlockUpdateLoop blocks (sec.put (codeRecordIdx b) (sar b 12)) w := by
  have hidx := recordBlockIdx_eq b
  unfold recordBlockIdx at hidx
  rw [multiBlockUpdateLoop]
  unfold multiBlockUpdateBody
  simp only [hidx, Section.SetBlock_of_range sec (sar b 12) (codeRecordIdx_range b)]
  cases hcb : w.events.MultiBlockUpdate with
  | none => rfl
  | some f =>
    simp only [World.invoke, recordCall]
    cases hr : f (and64 (sar b 8) 0xf) (and64 (sar b 4) 0xf) (and64 b 0xf) (sar b 12) w.calls <;> rfl

/-- With no callback registered the loop writes every record and logs
nothing. -/
theorem multiBlockUpdateLoop_none (blocks : List Int) : ∀ (sec : Section) (w : World),
    w.events.MultiBlockUpdate = none →
    multiBlockUpdateLoop blocks sec w = .ok (true, applyRecords sec blocks, w) := by
  induction blocks with
  | nil => intro sec w _; rfl
  | cons b blocks ih =>
    intro sec w hcb
    rw [multiBlockUpdateLoop_cons]
    simp only [hcb]
    rw [ih _ w hcb]
    rfl

/-- With a callback registered the loop writes the first `n` records and calls
the callback once for each of them, in order; it stops at the first record
whose call answers an error. -/
theorem multiBlockUpdateLoop_some
    (f : Int → Int → Int → BlocksState → List Invocation → Option Error)
    (blocks : List Int) : ∀ (sec : Section) (w : World),
    w.events.MultiBlockUpdate = some f →
    ∃ n applied, n ≤ blocks.length ∧
      multiBlockUpdateLoop blocks sec w
        = .ok (applied, applyRecords sec (blocks.take n),
            { w with calls := w.calls ++
              (blocks.take n).map (fun b => ⟨recordCall b, w.ChunkLock⟩) }) ∧
      (applied = true → n = blocks.length) ∧
      (applied = false → 0 < n ∧ ∃ b err, blocks.get? (n - 1) = some b ∧
        recordAnswer f b (w.calls ++
          (blocks.take (n - 1)).map (fun b => ⟨recordCall b, w.ChunkLock⟩)) = some err) ∧
      ((∀ x y z st tr, f x y z st tr = none) → applied = true) := by
  induction blocks with
  | nil =>
    intro sec w _
    refine ⟨0, true, le_refl _, ?_, fun _ => rfl, fun h => Bool.noConfusion h, fun _ => rfl⟩
    cases w
    simp [multiBlockUpdateLoop, applyRecords]
  | cons b blocks ih =>
    intro sec w hcb
    rw [multiBlockUpdateLoop_cons]
    simp only [hcb]
    cases hr : f (and64 (sar b 8) 0xf) (and64 (sar b 4) 0xf) (and64 b 0xf) (sar b 12) w.calls with
    | some err =>
      refine ⟨1, false, by simp, ?_, fun h => Bool.noConfusion h, fun _ => ⟨by omega, b, err, ?_, ?_⟩,
        fun hok => ?_⟩
      · simp [applyRecords]
      · simp
      · simpa [recordAnswer] using hr
      · rw [hok] at hr; exact Option.noConfusion hr
    | none =>
      obtain ⟨n, applied, hn, hrun, hall, hstop, hok⟩ :=
        ih (sec.put (codeRecordIdx b) (sar b 12))
          { w with calls := w.calls ++ [⟨recordCall b, w.ChunkLock⟩] } hcb
      refine ⟨n + 1, applied, by simpa using hn, ?_, fun h => by simp [hall h], fun h => ?_, hok⟩
      · simp only []
        rw [hrun, applyRecords_take_succ]
        simp
      · obtain ⟨hpos, b', err, hget, hans⟩ := hstop h
        refine ⟨by omega, b', err, ?_, ?_⟩
        · have : n + 1 - 1 = (n - 1) + 1 := by omega
          rw [this]
          simpa using hget
        · have : n + 1 - 1 = (n - 1) + 1 := by omega
          rw [this]
          simpa using hans

/-- On a loaded column and an existing section `multiBlockUpdate` is its loop,
run with the lock held, followed by storing the section and unlocking. -/
theorem multiBlockUpdate_loaded (w : World) (chunkX chunkY chunkZ : Int) (blocks : List Int)
    (c : Chunk) (sec : Section) (hlock : w.ChunkLock = false)
    (hcol : w.Columns ⟨int32 chunkX, int32 chunkZ⟩ = some c)
    (hsec : c.section? chunkY = some sec) :
    multiBlockUpdate w chunkX chunkY chunkZ blocks
      = match multiBlockUpdateLoop blocks sec { w with ChunkLock := true } with
        | .error e => .error e
        | .ok (applied, sec, w) =>
          .ok (applied, (w.store ⟨int32 chunkX, int32 chunkZ⟩ (c.setSection chunkY sec)).Unlock) := by
  unfold multiBlockUpdate
  simp only [World.Lock_of_unlocked hlock, hcol, hsec]

/-- The result of `multiBlockUpdate` when the column is not in the column
map. -/
theorem multiBlockUpdate_absent (w : World) (chunkX chunkY chunkZ : Int) (blocks : List Int)
    (hlock : w.ChunkLock = false) (hcol : w.Columns ⟨int32 chunkX, int32 chunkZ⟩ = none) :
    multiBlockUpdate w chunkX chunkY chunkZ blocks = .ok (false, w) := by
  unfold multiBlockUpdate
  simp only [World.Lock_of_unlocked hlock, hcol, World.unlock_lock hlock]

/-- What `multiBlockUpdate` does on a loaded column and an existing section:
the first `n` records are written and, with a callback registered, called
back in order with the lock held. -/
theorem multiBlockUpdate_spec (w : World) (chunkX chunkY chunkZ : Int) (blocks : List Int)
    (c : Chunk) (sec : Section) (hlock : w.ChunkLock = false)
    (hcol : w.Columns ⟨int32 chunkX, int32 chunkZ⟩ = some c)
    (hsec : c.section? chunkY = some sec) :
    ∃ n applied, n ≤ blocks.length ∧
      multiBlockUpdate w chunkX chunkY chunkZ blocks
        = .ok (applied,
            { p := w.p, events := w.events,
              Columns := fun k => if k = ⟨int32 chunkX, int32 chunkZ⟩
                then some (c.setSection chunkY (applyRecords sec (blocks.take n)))
                else w.Columns k,
              ChunkLock := false,
              calls := w.calls ++ (match w.events.MultiBlockUpdate with
                | none => []
                | some _ => (blocks.take n).map (fun b => ⟨recordCall b, true⟩)) }) ∧
      (applied = true → n = blocks.length) ∧
      (applied = false → 0 < n ∧ ∃ f b err, w.events.MultiBlockUpdate = some f ∧
        blocks.get? (n - 1) = some b ∧
        recordAnswer f b (w.calls ++
          (blocks.take (n - 1)).map (fun b => ⟨recordCall b, true⟩)) = some err) ∧
      ((∀ f, w.events.MultiBlockUpdate = some f → ∀ x y z st tr, f x y z st tr = none) →
        applied = true) := by
  rw [multiBlockUpdate_loaded w chunkX chunkY chunkZ blocks c sec hlock hcol hsec]
  cases hcb : w.events.MultiBlockUpdate with
  | none =>
    refine ⟨blocks.length, true, le_refl _, ?_, fun _ => rfl, fun h => Bool.noConfusion h,
      fun _ => rfl⟩
    rw [multiBlockUpdateLoop_none blocks sec { w with ChunkLock := true } hcb]
    simp [World.store, World.Unlock]
  | some f =>
    obtain ⟨n, applied, hn, hrun, hall, hstop, hok⟩ :=
      multiBlockUpdateLoop_some f blocks sec { w with ChunkLock := true } hcb
    refine ⟨n, applied, hn, ?_, hall, fun h => ?_, fun h => hok (h f rfl)⟩
    · rw [hrun]
      simp [World.store, World.Unlock]
    · obtain ⟨hpos, b, err, hget, hans⟩ := hstop h
      exact ⟨hpos, f, b, err, rfl, hget, hans⟩

/-- C12: when the column is not in the column map `multiBlockUpdate` returns
`false` and the very same world: no cell is written, the loaded columns are
the same and the callback log has not grown. -/
theorem multiBlockUpdate_unloaded_drops_batch (w : World) (chunkX chunkY chunkZ : Int)
    (blocks : List Int) (hlock : w.ChunkLock = false)
    (hcol : w.Columns ⟨int32 chunkX, int32 chunkZ⟩ = none) :
    multiBlockUpdate w chunkX chunkY chunkZ blocks = .ok (false, w) ∧
      resultCalls (multiBlockUpdate w chunkX chunkY chunkZ blocks) = some w.calls ∧
      ∀ k i j, resultCell (multiBlockUpdate w chunkX chunkY chunkZ blocks) k i j
        = w.cell k i j := by
  rw [multiBlockUpdate_absent w chunkX chunkY chunkZ blocks hlock hcol]
  exact ⟨rfl, rfl, fun _ _ _ => rfl⟩

/-- C13, amended: with a registered `MultiBlockUpdate` callback that never
answers an error, `multiBlockUpdate` on a loaded column and an existing
section returns `true` after invoking the callback exactly once per record, in
batch order, the call for record `v` carrying `x = (v >> 8) & 0xF` and the
state `v >> 12`. -/
theorem multiBlockUpdate_calls_in_batch_order (w : World) (chunkX chunkY chunkZ : Int)
    (blocks : List Int) (c : Chunk) (sec : Section)
    (f : Int → Int → Int → BlocksState → List Invocation → Option Error)
    (hlock : w.ChunkLock = false)
    (hcol : w.Columns ⟨int32 chunkX, int32 chunkZ⟩ = some c)
    (hsec : c.section? chunkY = some sec)
    (hcb : w.events.MultiBlockUpdate = some f)
    (hok : ∀ x y z st tr, f x y z st tr = none) :
    ∃ w' new, multiBlockUpdate w chunkX chunkY chunkZ blocks = .ok (true, w') ∧
      w'.calls = w.calls ++ new ∧ new.length = blocks.length ∧
      new.map (fun i => i.call.xAndState)
        = blocks.map (fun v => some (and64 (sar v 8) 0xF, sar v 12)) := by
  obtain ⟨n, applied, hn, hrun, hall, _, happ⟩ :=
    multiBlockUpdate_spec w chunkX chunkY chunkZ blocks c sec hlock hcol hsec
  have htrue : applied = true := happ (fun g hg => by
    rw [hcb] at hg
    cases hg
    exact hok)
  subst htrue
  have hlen : n = blocks.length := hall rfl
  subst hlen
  refine ⟨_, blocks.map (fun b => ⟨recordCall b, true⟩), hrun, ?_, by simp, ?_⟩
  · simp [hcb]
  · simp [recordCall, Call.xAndState, Function.comp_def]

/-! ## Dimension lookup failures and callback errors -/

/-- C14: when the dimension-type lookup finds nothing, handling a column load
and handling a batched patch (whose packet scans) each return the error
"dimension type " + name + " not found" together with the very same world: no
column, cell or callback log entry has changed. -/
theorem dimension_not_found_aborts (w : World) (hdim : w.currentDimType = none) :
    (∀ packet : LevelChunkPacket,
      handleLevelChunkWithLightPacket w packet
        = .ok (some ("dimension type " ++ w.p.DimensionName ++ " not found"), w)) ∧
    (∀ packet : SectionBlocksUpdatePacket, packet.scanErr = none →
      handleMultiBlockUpdatePacket w packet
        = .ok (some ("dimension type " ++ w.p.DimensionName ++ " not found"), w)) := by
  constructor
  · intro packet
    unfold handleLevelChunkWithLightPacket
    simp only [hdim]
  · intro packet hscan
    unfold handleMultiBlockUpdatePacket
    simp only [hscan, hdim]

/-! ## The local index as a bijection, and floor arithmetic -/

theorem sar_4 (x : Int) : sar x 4 = x / 16 := by
  unfold sar
  norm_num

theorem sar_8 (x : Int) : sar x 8 = x / 256 := by
  unfold sar
  norm_num

/-- C16: on local coordinates in `[0, 16)` `sectionIdx` is a bijection onto
`[0, 4096)`: its value is in range, equal values come from equal triples, and
every `i` in `[0, 4096)` is the value at `(i & 15, i >> 8, (i >> 4) & 15)`,
a triple of local coordinates. -/
theorem sectionIdx_bijection_on_local_cube (x y z x' y' z' i : Int)
    (hx0 : 0 ≤ x) (hx : x < 16) (hy0 : 0 ≤ y) (hy : y < 16) (hz0 : 0 ≤ z) (hz : z < 16)
    (hx0' : 0 ≤ x') (hx' : x' < 16) (hy0' : 0 ≤ y') (hy' : y' < 16)
    (hz0' : 0 ≤ z') (hz' : z' < 16) (hi0 : 0 ≤ i) (hi : i < 4096) :
    (0 ≤ sectionIdx x y z ∧ sectionIdx x y z < 4096) ∧
    (sectionIdx x y z = sectionIdx x' y' z' → x = x' ∧ y = y' ∧ z = z') ∧
    (sectionIdx (and64 i 15) (sar i 8) (and64 (sar i 4) 15) = i ∧
      (0 ≤ and64 i 15 ∧ and64 i 15 < 16) ∧ (0 ≤ sar i 8 ∧ sar i 8 < 16) ∧
      (0 ≤ and64 (sar i 4) 15 ∧ and64 (sar i 4) 15 < 16)) := by
  rw [sectionIdx_local x y z hx0 hx hz0 hz, sectionIdx_local x' y' z' hx0' hx' hz0' hz']
  simp only [and64_15, sar_4, sar_8]
  rw [sectionIdx_local _ _ _ (Int.emod_nonneg _ (by norm_num)) (Int.emod_lt_of_pos _ (by norm_num))
    (Int.emod_nonneg _ (by norm_num)) (Int.emod_lt_of_pos _ (by norm_num))]
  refine ⟨⟨?_, ?_⟩, ?_, ?_, ⟨?_, ?_⟩, ⟨?_, ?_⟩, ⟨?_, ?_⟩⟩ <;> omega

/-- C17: for every signed coordinate, `x >> 4` is the floor of `x / 16`,
`x & 15` is the non-negative remainder of `x` modulo 16, and
`16 * (x >> 4) + (x & 15) = x`; so the local index `unaryBlockUpdate`
computes is `256 * (Y mod 16) + 16 * (Z mod 16) + (X mod 16)`. -/
theorem shift_mask_agree_with_floor_division (x : Int) (pos : Position) :
    sar x 4 = ⌊(x : ℚ) / 16⌋ ∧
    (16 * sar x 4 ≤ x ∧ x < 16 * sar x 4 + 16) ∧
    and64 x 15 = x % 16 ∧ (0 ≤ and64 x 15 ∧ and64 x 15 < 16) ∧
    16 * sar x 4 + and64 x 15 = x ∧
    unaryBlockIdx pos = sectionIdx (pos.X % 16) (pos.Y % 16) (pos.Z % 16) ∧
    unaryBlockIdx pos = 256 * (pos.Y % 16) + 16 * (pos.Z % 16) + pos.X % 16 := by
  have hfloor : ⌊(x : ℚ) / 16⌋ = x / 16 := by
    have h := Rat.floor_intCast_div_natCast x 16
    norm_num at h
    exact h
  rw [hfloor, sar_4, and64_15, unaryBlockIdx_eq]
  refine ⟨rfl, ⟨?_, ?_⟩, rfl, ⟨?_, ?_⟩, ?_, ?_, rfl⟩
  · omega
  · omega
  · omega
  · omega
  · omega
  · rw [← unaryBlockIdx_eq]
    unfold unaryBlockIdx
    simp only [and64_15]

/-! ## Section indices of the two update paths -/

theorem unarySectionIdx_eq (dt : DimensionType) (pos : Position) :
    unarySectionIdx dt pos
      = ((((pos.Y + 2 ^ 31) % 2 ^ 32 - 2 ^ 31) - dt.MinY + 2 ^ 31) % 2 ^ 32 - 2 ^ 31) / 16 := by
  unfold unarySectionIdx
  rw [sar_4, int32_eq, int32_eq]

theorem batchedSectionIdx_eq (dt : DimensionType) (y : Int) :
    batchedSectionIdx dt y = (y / 16 - dt.MinY / 16 + 2 ^ 63) % 2 ^ 64 - 2 ^ 63 := by
  unfold batchedSectionIdx
  rw [int64_eq, sar_4, sar_4]

/-- C18, amended: when `MinY` is a multiple of 16 and `Y - MinY` fits in a
signed 32-bit integer, the section index of `unaryBlockUpdate`,
`(int32(Y) - MinY) >> 4`, equals the index the batched path passes for the
block's section, `(Y >> 4) - (MinY >> 4)`; and for every `MinY` that is not a multiple of 16
the two differ at `Y = 0`. -/
theorem section_index_paths_agree_when_aligned (dt : DimensionType) (pos : Position) (m : Int)
    (halign : 16 ∣ dt.MinY) (hfit1 : -2 ^ 31 ≤ pos.Y - dt.MinY)
    (hfit2 : pos.Y - dt.MinY < 2 ^ 31) (hm : ¬ 16 ∣ m) :
    unarySectionIdx dt pos = batchedSectionIdx dt pos.Y ∧
      unarySectionIdx ⟨dt.Height, m⟩ ⟨0, 0, 0⟩ ≠ batchedSectionIdx ⟨dt.Height, m⟩ 0 := by
  rw [unarySectionIdx_eq, batchedSectionIdx_eq, unarySectionIdx_eq, batchedSectionIdx_eq]
  obtain ⟨k, hk⟩ := halign
  have hm' : m % 16 ≠ 0 := fun h => hm (Int.dvd_of_emod_eq_zero h)
  norm_num at *
  constructor <;> omega

/-- C19: with a dimension whose height is a positive multiple of 16, a column
of `Height / 16` sections (the length of every column a load creates) and a
block with `MinY ≤ Y < MinY + Height`, the section index of
`unaryBlockUpdate` is in `[0, Height / 16)`, the access `c.Sections[sIdx]`
succeeds, the local index is in `[0, 4096)` and the update returns `true`. -/
theorem unaryBlockUpdate_index_in_range (w : World) (pos : Position) (s : BlocksState)
    (dt : DimensionType) (c : Chunk) (hlock : w.ChunkLock = false)
    (hdim : w.currentDimType = some dt) (hcol : w.Columns (columnOf pos) = some c)
    (hpos : 0 < dt.Height) (h32 : dt.Height < 2 ^ 31) (hmul : 16 ∣ dt.Height)
    (hlen : c.Sections.length = (Int.tdiv dt.Height 16).toNat)
    (hy1 : dt.MinY ≤ pos.Y) (hy2 : pos.Y < dt.MinY + dt.Height) :
    (∀ packet : LevelChunkPacket,
      (loadedChunk dt packet).Sections.length = (Int.tdiv dt.Height 16).toNat) ∧
    (0 ≤ unarySectionIdx dt pos ∧ unarySectionIdx dt pos < dt.Height / 16) ∧
    (∃ sec, c.section? (unarySectionIdx dt pos) = some sec) ∧
    (0 ≤ unaryBlockIdx pos ∧ unaryBlockIdx pos < 4096) ∧
    ∃ w', unaryBlockUpdate w pos s = .ok (true, w') := by
  have htdiv : Int.tdiv dt.Height 16 = dt.Height / 16 :=
    Int.tdiv_eq_ediv (le_of_lt hpos) (by norm_num)
  have hidx : 0 ≤ unarySectionIdx dt pos ∧ unarySectionIdx dt pos < dt.Height / 16 := by
    rw [unarySectionIdx_eq]
    obtain ⟨k, hk⟩ := hmul
    norm_num at *
    constructor <;> omega
  have hlt : (unarySectionIdx dt pos).toNat < c.Sections.length := by
    rw [hlen, htdiv]
    omega
  have hsec : c.section? (unarySectionIdx dt pos)
      = some (c.Sections.get ⟨(unarySectionIdx dt pos).toNat, hlt⟩) := by
    unfold Chunk.section?
    rw [if_pos hidx.1]
    exact List.get?_eq_get hlt
  refine ⟨fun packet => by simp [loadedChunk], hidx, ⟨_, hsec⟩, unaryBlockIdx_range pos,
    _, unaryBlockUpdate_ok w pos s dt c _ hlock hdim hcol hsec⟩

/-- C20: two block positions with coordinates in the signed 32-bit range that
`unaryBlockUpdate` resolves to the same column key, the same section index and
the same local index are the same position, whatever `MinY` is. -/
theorem unaryBlockUpdate_address_injective (dt : DimensionType) (p q : Position)
    (hpx1 : -2 ^ 31 ≤ p.X) (hpx2 : p.X < 2 ^ 31) (hpy1 : -2 ^ 31 ≤ p.Y) (hpy2 : p.Y < 2 ^ 31)
    (hpz1 : -2 ^ 31 ≤ p.Z) (hpz2 : p.Z < 2 ^ 31)
    (hqx1 : -2 ^ 31 ≤ q.X) (hqx2 : q.X < 2 ^ 31) (hqy1 : -2 ^ 31 ≤ q.Y) (hqy2 : q.Y < 2 ^ 31)
    (hqz1 : -2 ^ 31 ≤ q.Z) (hqz2 : q.Z < 2 ^ 31)
    (hcol : columnOf p = columnOf q)
    (hsec : unarySectionIdx dt p = unarySectionIdx dt q)
    (hidx : unaryBlockIdx p = unaryBlockIdx q) : p = q := by
  rw [unaryBlockIdx_eq, unaryBlockIdx_eq] at hidx
  rw [unarySectionIdx_eq, unarySectionIdx_eq] at hsec
  unfold columnOf at hcol
  injection hcol with hX hZ
  rw [int32_eq, int32_eq, sar_4, sar_4] at hX hZ
  obtain ⟨px, py, pz⟩ := p
  obtain ⟨qx, qy, qz⟩ := q
  norm_num at *
  refine ⟨?_, ?_, ?_⟩ <;> omega

/-! ## Instances and evaluations for the batched path and the indices -/

set_option maxRecDepth 100000 in
/-- C11, as stated, fails: with a callback that answers an error, the batch
`[28688, 36865]` (state 7 to cell 16, state 9 to cell 256) leaves state 7 in
cell 16 and the old state 0 in cell 256, so one record is applied and the
other is not. -/
theorem multiBlockUpdate_partial_batch_counterexample :
    codeRecordIdx 28688 = 16 ∧ sar 28688 12 = 7 ∧ codeRecordIdx 36865 = 256 ∧
      sar 36865 12 = 9 ∧
      (sampleWorld (constEvents (some "boom"))).cell ⟨0, 0⟩ 0 16 = some 0 ∧
      resultValue (multiBlockUpdate (sampleWorld (constEvents (some "boom"))) 0 0 0
        [28688, 36865]) = some false ∧
      resultCell (multiBlockUpdate (sampleWorld (constEvents (some "boom"))) 0 0 0
        [28688, 36865]) ⟨0, 0⟩ 0 16 = some 7 ∧
      resultCell (multiBlockUpdate (sampleWorld (constEvents (some "boom"))) 0 0 0
        [28688, 36865]) ⟨0, 0⟩ 0 256 = some 0 := by
  decide

/-- C12 at a new world, where no column is loaded. -/
theorem multiBlockUpdate_unloaded_drops_batch_witness :
    multiBlockUpdate (NewWorld samplePlayer (constEvents none)) 0 0 0 [28688]
        = .ok (false, NewWorld samplePlayer (constEvents none)) ∧
      resultCalls (multiBlockUpdate (NewWorld samplePlayer (constEvents none)) 0 0 0 [28688])
        = some (NewWorld samplePlayer (constEvents none)).calls ∧
      ∀ k i j,
        resultCell (multiBlockUpdate (NewWorld samplePlayer (constEvents none)) 0 0 0 [28688])
          k i j = (NewWorld samplePlayer (constEvents none)).cell k i j :=
  multiBlockUpdate_unloaded_drops_batch (NewWorld samplePlayer (constEvents none)) 0 0 0
    [28688] rfl rfl

set_option maxRecDepth 100000 in
/-- C13, as stated, fails: for the record `v = 28688` the spec's decoding is
the call `(x, y, z, state) = (1, 0, 0, 7)`, but the callback is invoked with
`(0, 1, 0, 7)`. -/
theorem multiBlockUpdate_spec_call_counterexample :
    specRecordCall 28688 = .MultiBlockUpdate 1 0 0 7 ∧
      resultCalls (multiBlockUpdate (sampleWorld (constEvents none)) 0 0 0 [28688])
        = some [⟨.MultiBlockUpdate 0 1 0 7, true⟩] ∧
      resultCalls (multiBlockUpdate (sampleWorld (constEvents none)) 0 0 0 [28688])
        ≠ some [⟨specRecordCall 28688, true⟩] := by
  decide

/-- C13, amended, at the sample world with callbacks that never fail and a
batch of three records. -/
theorem multiBlockUpdate_calls_in_batch_order_witness :
    ∃ w' new,
      multiBlockUpdate (sampleWorld (constEvents none)) 0 0 0 [28688, 36865, 4096]
        = .ok (true, w') ∧
      w'.calls = (sampleWorld (constEvents none)).calls ++ new ∧
      new.length = [(28688 : Int), 36865, 4096].length ∧
      new.map (fun i => i.call.xAndState)
        = [(28688 : Int), 36865, 4096].map (fun v => some (and64 (sar v 8) 0xF, sar v 12)) :=
  multiBlockUpdate_calls_in_batch_order (sampleWorld (constEvents none)) 0 0 0
    [28688, 36865, 4096] sampleChunk ⟨fun _ => 0⟩ (fun _ _ _ _ _ => none) rfl rfl rfl rfl
    (fun _ _ _ _ _ => rfl)

/-- C14 at a new world whose dimension name is not in the registry. -/
theorem dimension_not_found_aborts_witness :
    (∀ packet : LevelChunkPacket,
      handleLevelChunkWithLightPacket (NewWorld lostPlayer noEvents) packet
        = .ok (some ("dimension type " ++ (NewWorld lostPlayer noEvents).p.DimensionName
            ++ " not found"), NewWorld lostPlayer noEvents)) ∧
    (∀ packet : SectionBlocksUpdatePacket, packet.scanErr = none →
      handleMultiBlockUpdatePacket (NewWorld lostPlayer noEvents) packet
        = .ok (some ("dimension type " ++ (NewWorld lostPlayer noEvents).p.DimensionName
            ++ " not found"), NewWorld lostPlayer noEvents)) :=
  dimension_not_found_aborts (NewWorld lostPlayer noEvents) rfl

/-- C16 at the triple (3, 2, 1) and the index 531. -/
theorem sectionIdx_bijection_on_local_cube_witness :
    (0 ≤ sectionIdx 3 2 1 ∧ sectionIdx 3 2 1 < 4096) ∧
    (sectionIdx 3 2 1 = sectionIdx 3 2 1 → (3 : Int) = 3 ∧ (2 : Int) = 2 ∧ (1 : Int) = 1) ∧
    (sectionIdx (and64 531 15) (sar 531 8) (and64 (sar 531 4) 15) = 531 ∧
      (0 ≤ and64 531 15 ∧ and64 531 15 < 16) ∧ (0 ≤ sar 531 8 ∧ sar 531 8 < 16) ∧
      (0 ≤ and64 (sar 531 4) 15 ∧ and64 (sar 531 4) 15 < 16)) :=
  sectionIdx_bijection_on_local_cube 3 2 1 3 2 1 531 (by decide) (by decide) (by decide)
    (by decide) (by decide) (by decide) (by decide) (by decide) (by decide) (by decide)
    (by decide) (by decide) (by decide) (by decide)

set_option maxRecDepth 100000 in
/-- C18, as stated, fails: `MinY = -2147483648` is a multiple of 16, and at
`Y = 0` the 32-bit subtraction of `unaryBlockUpdate` overflows, giving the
section index -134217728 where the batched path gives 134217728. -/
theorem section_index_overflow_counterexample :
    (16 : Int) ∣ -2147483648 ∧
      unarySectionIdx ⟨384, -2147483648⟩ ⟨0, 0, 0⟩ = -134217728 ∧
      batchedSectionIdx ⟨384, -2147483648⟩ 0 = 134217728 ∧
      unarySectionIdx ⟨384, -2147483648⟩ ⟨0, 0, 0⟩
        ≠ batchedSectionIdx ⟨384, -2147483648⟩ 0 := by
  decide

/-- C18, amended, at `MinY = -64`, `Y = 70` and the misaligned `MinY = -60`. -/
theorem section_index_paths_agree_when_aligned_witness :
    unarySectionIdx ⟨384, -64⟩ ⟨0, 70, 0⟩ = batchedSectionIdx ⟨384, -64⟩ 70 ∧
      unarySectionIdx ⟨384, -60⟩ ⟨0, 0, 0⟩ ≠ batchedSectionIdx ⟨384, -60⟩ 0 :=
  section_index_paths_agree_when_aligned ⟨384, -64⟩ ⟨0, 70, 0⟩ (-60) (by decide) (by decide)
    (by decide) (by decide)

/-- C19 at the sample world: the block (1, 2, 3) in a dimension of height 384
starting at -64. -/
theorem unaryBlockUpdate_index_in_range_witness :
    (∀ packet : LevelChunkPacket,
      (loadedChunk ⟨384, -64⟩ packet).Sections.length = (Int.tdiv 384 16).toNat) ∧
    (0 ≤ unarySectionIdx ⟨384, -64⟩ ⟨1, 2, 3⟩ ∧
      unarySectionIdx ⟨384, -64⟩ ⟨1, 2, 3⟩ < 384 / 16) ∧
    (∃ sec, sampleChunk.section? (unarySectionIdx ⟨384, -64⟩ ⟨1, 2, 3⟩) = some sec) ∧
    (0 ≤ unaryBlockIdx ⟨1, 2, 3⟩ ∧ unaryBlockIdx ⟨1, 2, 3⟩ < 4096) ∧
    ∃ w', unaryBlockUpdate (sampleWorld noEvents) ⟨1, 2, 3⟩ 7 = .ok (true, w') :=
  unaryBlockUpdate_index_in_range (sampleWorld noEvents) ⟨1, 2, 3⟩ 7 ⟨384, -64⟩ sampleChunk
    rfl rfl rfl (by decide) (by decide) (by decide) rfl (by decide) (by decide)

/-- C20 at the position (1, 2, 3), compared with itself. -/
theorem unaryBlockUpdate_address_injective_witness :
    (⟨1, 2, 3⟩ : Position) = ⟨1, 2, 3⟩ :=
  unaryBlockUpdate_address_injective ⟨384, -64⟩ ⟨1, 2, 3⟩ ⟨1, 2, 3⟩ (by decide) (by decide)
    (by decide) (by decide) (by decide) (by decide) (by decide) (by decide) (by decide)
    (by decide) (by decide) (by decide) rfl rfl rfl

/-! ## The batched update, record by record -/

/-- With a callback registered the loop stops exactly at the first record
whose call answers an error: the calls for the records before it answer no
error, that record is the last one written, and the loop reports `false`;
when no call answers an error every record is written and the loop reports
`true`. -/
theorem multiBlockUpdateLoop_exact
    (f : Int → Int → Int → BlocksState → List Invocation → Option Error)
    (blocks : List Int) : ∀ (sec : Section) (w : World),
    w.events.MultiBlockUpdate = some f →
    ∃ n applied, n ≤ blocks.length ∧
      multiBlockUpdateLoop blocks sec w
        = .ok (applied, applyRecords sec (blocks.take n),
            { w with calls := w.calls ++
              (blocks.take n).map (fun b => ⟨recordCall b, w.ChunkLock⟩) }) ∧
      (applied = true → n = blocks.length) ∧
      (applied = false → 0 < n ∧ ∃ b err, blocks.get? (n - 1) = some b ∧
        recordAnswer f b (w.calls ++
          (blocks.take (n - 1)).map (fun b => ⟨recordCall b, w.ChunkLock⟩)) = some err) ∧
      (∀ i b, (i + 1 < n ∨ (applied = true ∧ i < n)) → blocks.get? i = some b →
        recordAnswer f b (w.calls ++
          (blocks.take i).map (fun b => ⟨recordCall b, w.ChunkLock⟩)) = none) := by
  induction blocks with
  | nil =>
    intro sec w _
    refine ⟨0, true, le_refl _, ?_, fun _ => rfl, fun h => Bool.noConfusion h, ?_⟩
    · cases w
      simp [multiBlockUpdateLoop, applyRecords]
    · intro i b h
      rcases h with h | ⟨_, h⟩ <;> omega
  | cons b blocks ih =>
    intro sec w hcb
    rw [multiBlockUpdateLoop_cons]
    simp only [hcb]
    cases hr : f (and64 (sar b 8) 0xf) (and64 (sar b 4) 0xf) (and64 b 0xf) (sar b 12) w.calls with
    | some err =>
      refine ⟨1, false, by simp, ?_, fun h => Bool.noConfusion h,
        fun _ => ⟨by omega, b, err, ?_, ?_⟩, ?_⟩
      · simp [applyRecords]
      · simp
      · simpa [recordAnswer] using hr
      · intro i b' h
        rcases h with h | ⟨h, _⟩
        · omega
        · exact Bool.noConfusion h
    | none =>
      obtain ⟨n, applied, hn, hrun, hall, hstop, hbefore⟩ :=
        ih (sec.put (codeRecordIdx b) (sar b 12))
          { w with calls := w.calls ++ [⟨recordCall b, w.ChunkLock⟩] } hcb
      refine ⟨n + 1, applied, by simpa using hn, ?_, fun h => by simp [hall h], fun h => ?_, ?_⟩
      · simp only []
        rw [hrun, applyRecords_take_succ]
        simp
      · obtain ⟨hpos, b', err, hget, hans⟩ := hstop h
        refine ⟨by omega, b', err, ?_, ?_⟩
        · have : n + 1 - 1 = (n - 1) + 1 := by omega
          rw [this]
          simpa using hget
        · have : n + 1 - 1 = (n - 1) + 1 := by omega
          rw [this]
          simpa using hans
      · intro i b' h hget
        cases i with
        | zero =>
          simp at hget
          subst hget
          simpa [recordAnswer] using hr
        | succ j =>
          have h' : j + 1 < n ∨ (applied = true ∧ j < n) := by
            rcases h with h | ⟨ha, h⟩
            · exact Or.inl (by omega)
            · exact Or.inr ⟨ha, by omega⟩
          have := hbefore j b' h' (by simpa using hget)
          simpa using this

/-- What `multiBlockUpdate` does on a loaded column and an existing section,
exactly: the records up to and including the first one whose callback answers
an error are written and called back, in order and with the lock held, and the
result is `false`; with no such record, or no callback registered, the whole
batch is written and the result is `true`. -/
theorem multiBlockUpdate_exact (w : World) (chunkX chunkY chunkZ : Int) (blocks : List Int)
    (c : Chunk) (sec : Section) (hlock : w.ChunkLock = false)
    (hcol : w.Columns ⟨int32 chunkX, int32 chunkZ⟩ = some c)
    (hsec : c.section? chunkY = some sec) :
    ∃ n applied, n ≤ blocks.length ∧
      multiBlockUpdate w chunkX chunkY chunkZ blocks
        = .ok (applied,
            { p := w.p, events := w.events,
              Columns := fun k => if k = ⟨int32 chunkX, int32 chunkZ⟩
                then some (c.setSection chunkY (applyRecords sec (blocks.take n)))
                else w.Columns k,
              ChunkLock := false,
              calls := w.calls ++ (match w.events.MultiBlockUpdate with
                | none => []
                | some _ => (blocks.take n).map (fun b => ⟨recordCall b, true⟩)) }) ∧
      (applied = true → n = blocks.length) ∧
      (applied = false → 0 < n ∧ ∃ f b err, w.events.MultiBlockUpdate = some f ∧
        blocks.get? (n - 1) = some b ∧
        recordAnswer f b (w.calls ++
          (blocks.take (n - 1)).map (fun b => ⟨recordCall b, true⟩)) = some err) ∧
      (∀ f i b, w.events.MultiBlockUpdate = some f →
        (i + 1 < n ∨ (applied = true ∧ i < n)) → blocks.get? i = some b →
        recordAnswer f b (w.calls ++
          (blocks.take i).map (fun b => ⟨recordCall b, true⟩)) = none) := by
  rw [multiBlockUpdate_loaded w chunkX chunkY chunkZ blocks c sec hlock hcol hsec]
  cases hcb : w.events.MultiBlockUpdate with
  | none =>
    refine ⟨blocks.length, true, le_refl _, ?_, fun _ => rfl, fun h => Bool.noConfusion h,
      fun f _ _ hf => Option.noConfusion hf⟩
    rw [multiBlockUpdateLoop_none blocks sec { w with ChunkLock := true } hcb]
    simp [World.store, World.Unlock]
  | some f =>
    obtain ⟨n, applied, hn, hrun, hall, hstop, hbefore⟩ :=
      multiBlockUpdateLoop_exact f blocks sec { w with ChunkLock := true } hcb
    refine ⟨n, applied, hn, ?_, hall, fun h => ?_, fun g i b hg hi hget => ?_⟩
    · rw [hrun]
      simp [World.store, World.Unlock]
    · obtain ⟨hpos, b, err, hget, hans⟩ := hstop h
      exact ⟨hpos, f, b, err, rfl, hget, hans⟩
    · cases hg
      exact hbefore i b hi hget

/-- The first record whose call answers an error is where `multiBlockUpdate`
stops: from the exact description of a run, an error at record `i` with no
error before it forces the result `false` and `n = i + 1`. -/
theorem stops_at_first_error
    (f : Int → Int → Int → BlocksState → List Invocation → Option Error)
    (blocks : List Int) (log : List Invocation) (n : Nat) (applied : Bool)
    (hall : applied = true → n = blocks.length)
    (hstop : applied = false → 0 < n ∧ ∃ b err, blocks.get? (n - 1) = some b ∧
      recordAnswer f b (log ++
        (blocks.take (n - 1)).map (fun b => ⟨recordCall b, true⟩)) = some err)
    (hbefore : ∀ i b, (i + 1 < n ∨ (applied = true ∧ i < n)) → blocks.get? i = some b →
      recordAnswer f b (log ++
        (blocks.take i).map (fun b => ⟨recordCall b, true⟩)) = none)
    (i : Nat) (b : Int) (err : Error) (hget : blocks.get? i = some b)
    (hans : recordAnswer f b (log ++
      (blocks.take i).map (fun b => ⟨recordCall b, true⟩)) = some err)
    (hfirst : ∀ j b', j < i → blocks.get? j = some b' →
      recordAnswer f b' (log ++
        (blocks.take j).map (fun b => ⟨recordCall b, true⟩)) = none) :
    applied = false ∧ n = i + 1 := by
  have hi : i < blocks.length := by
    by_contra hge
    rw [List.get?_eq_none.mpr (by omega)] at hget
    exact Option.noConfusion hget
  have hfalse : applied = false := by
    cases happ : applied with
    | false => rfl
    | true =>
      have hlen := hall happ
      have := hbefore i b (Or.inr ⟨happ, by omega⟩) hget
      rw [this] at hans
      exact Option.noConfusion hans
  refine ⟨hfalse, ?_⟩
  obtain ⟨hpos, b', err', hget', hans'⟩ := hstop hfalse
  rcases Nat.lt_trichotomy (n - 1) i with hlt | heq | hgt
  · have := hfirst (n - 1) b' hlt hget'
    rw [this] at hans'
    exact Option.noConfusion hans'
  · omega
  · have := hbefore i b (Or.inl (by omega)) hget
    rw [this] at hans
    exact Option.noConfusion hans

/-- C3, amended: a batch applied by `multiBlockUpdate` to a loaded column and
an existing section returns, and the section then holds exactly the first `n`
records of the batch, each record `v` written as state `v >> 12` at the cell
`(y << 8) | (z << 4) | x` where `x = (v >> 8) & 0xF`, `z = (v >> 4) & 0xF`
and `y = v & 0xF`. Here `n` is the whole batch when the result is `true`, as
it is when no callback answers an error; when the result is `false` the
`n`-th record is the first one whose callback answered an error. -/
theorem multiBlockUpdate_writes_code_layout (w : World) (chunkX chunkY chunkZ : Int)
    (blocks : List Int) (c : Chunk) (sec : Section) (hlock : w.ChunkLock = false)
    (hcol : w.Columns ⟨int32 chunkX, int32 chunkZ⟩ = some c)
    (hsec : c.section? chunkY = some sec) :
    ∃ n applied w', n ≤ blocks.length ∧
      multiBlockUpdate w chunkX chunkY chunkZ blocks = .ok (applied, w') ∧
      (applied = true → n = blocks.length) ∧
      ((∀ f, w.events.MultiBlockUpdate = some f → ∀ x y z st tr, f x y z st tr = none) →
        applied = true) ∧
      w'.Columns ⟨int32 chunkX, int32 chunkZ⟩
        = some (c.setSection chunkY (applyRecords sec (blocks.take n))) ∧
      (applied = false → 0 < n ∧ ∃ f b err, w.events.MultiBlockUpdate = some f ∧
        blocks.get? (n - 1) = some b ∧
        recordAnswer f b (w.calls ++
          (blocks.take (n - 1)).map (fun b => ⟨recordCall b, true⟩)) = some err) ∧
      (∀ f i b, w.events.MultiBlockUpdate = some f →
        (i + 1 < n ∨ (applied = true ∧ i < n)) → blocks.get? i = some b →
        recordAnswer f b (w.calls ++
          (blocks.take i).map (fun b => ⟨recordCall b, true⟩)) = none) ∧
      (∀ v, codeRecordIdx v = 256 * (v % 16) + 16 * (sar v 4 % 16) + sar v 8 % 16) := by
  obtain ⟨n, applied, hn, hrun, hall, hstop, hbefore⟩ :=
    multiBlockUpdate_exact w chunkX chunkY chunkZ blocks c sec hlock hcol hsec
  refine ⟨n, applied, _, hn, hrun, hall, fun hok => ?_, by simp, hstop, hbefore,
    codeRecordIdx_eq⟩
  cases happ : applied with
  | true => rfl
  | false =>
    obtain ⟨_, f, b, err, hf, _, hans⟩ := hstop happ
    unfold recordAnswer at hans
    rw [hok f hf] at hans
    exact Option.noConfusion hans

/-- C11, amended: `multiBlockUpdate` on a loaded column and an existing
section applies a prefix of the batch, in order, and nothing is rolled back.
The first `n` records are written and called back and no other column changes.
The first record whose callback answers an error ends the batch: the result is
`false`, that record is the `n`-th and stays written, and the later records
are neither written nor called back. When no callback answers an error the
whole batch is written and the result is `true`. -/
theorem multiBlockUpdate_applies_a_prefix (w : World) (chunkX chunkY chunkZ : Int)
    (blocks : List Int) (c : Chunk) (sec : Section) (hlock : w.ChunkLock = false)
    (hcol : w.Columns ⟨int32 chunkX, int32 chunkZ⟩ = some c)
    (hsec : c.section? chunkY = some sec) :
    ∃ n applied w', n ≤ blocks.length ∧
      multiBlockUpdate w chunkX chunkY chunkZ blocks = .ok (applied, w') ∧
      w'.Columns ⟨int32 chunkX, int32 chunkZ⟩
        = some (c.setSection chunkY (applyRecords sec (blocks.take n))) ∧
      (∀ k, k ≠ (⟨int32 chunkX, int32 chunkZ⟩ : ChunkPos) → w'.Columns k = w.Columns k) ∧
      w'.calls = w.calls ++ (match w.events.MultiBlockUpdate with
        | none => []
        | some _ => (blocks.take n).map (fun b => ⟨recordCall b, true⟩)) ∧
      (applied = true → n = blocks.length) ∧
      (applied = false → 0 < n ∧ ∃ f b err, w.events.MultiBlockUpdate = some f ∧
        blocks.get? (n - 1) = some b ∧
        recordAnswer f b (w.calls ++
          (blocks.take (n - 1)).map (fun b => ⟨recordCall b, true⟩)) = some err) ∧
      (∀ f i b err, w.events.MultiBlockUpdate = some f → blocks.get? i = some b →
        recordAnswer f b (w.calls ++
          (blocks.take i).map (fun b => ⟨recordCall b, true⟩)) = some err →
        (∀ j b', j < i → blocks.get? j = some b' →
          recordAnswer f b' (w.calls ++
            (blocks.take j).map (fun b => ⟨recordCall b, true⟩)) = none) →
        applied = false ∧ n = i + 1) ∧
      ((∀ f, w.events.MultiBlockUpdate = some f → ∀ x y z st tr, f x y z st tr = none) →
        applied = true ∧ n = blocks.length) := by
  obtain ⟨n, applied, hn, hrun, hall, hstop, hbefore⟩ :=
    multiBlockUpdate_exact w chunkX chunkY chunkZ blocks c sec hlock hcol hsec
  have htrue : (∀ f, w.events.MultiBlockUpdate = some f → ∀ x y z st tr, f x y z st tr = none) →
      applied = true := by
    intro hok
    cases happ : applied with
    | true => rfl
    | false =>
      obtain ⟨_, f, b, err, hf, _, hans⟩ := hstop happ
      unfold recordAnswer at hans
      rw [hok f hf] at hans
      exact Option.noConfusion hans
  refine ⟨n, applied, _, hn, hrun, by simp, fun k hk => by simp [hk], rfl, hall, hstop, ?_,
    fun hok => ⟨htrue hok, hall (htrue hok)⟩⟩
  intro f i b err hf hget hans hfirst
  refine stops_at_first_error f blocks w.calls n applied hall (fun h => ?_)
    (fun i b hi hg => hbefore f i b hf hi hg) i b err hget hans hfirst
  obtain ⟨hpos, g, b', err', hg, hget', hans'⟩ := hstop h
  rw [hf] at hg
  cases hg
  exact ⟨hpos, b', err', hget', hans'⟩

/-- C15: in every world with the lock free, an error answered by the
`LoadChunk` callback while a load is handled is returned and leaves the newly
decoded column stored at the packet's coordinate; and an error answered by the
`UnloadChunk` callback while an unload is handled is returned and the column
is removed all the same; in both cases every other column is unchanged. -/
theorem callback_error_does_not_roll_back (w : World) (e : Error)
    (hlock : w.ChunkLock = false) :
    (∀ (load : LevelChunkPacket) (dt : DimensionType)
        (f : ChunkPos → List Invocation → Option Error),
      w.currentDimType = some dt → 0 ≤ dt.Height → load.scanErr = none →
      w.events.LoadChunk = some f → f load.pos w.calls = some e →
      ∃ w', handleLevelChunkWithLightPacket w load = .ok (some e, w') ∧
        w'.Columns load.pos = some (loadedChunk dt load) ∧
        ∀ k, k ≠ load.pos → w'.Columns k = w.Columns k) ∧
    (∀ (forget : ForgetLevelChunkPacket) (g : ChunkPos → List Invocation → Option Error),
      forget.scanErr = none →
      w.events.UnloadChunk = some g → g forget.pos w.calls = some e →
      ∃ w', handleForgetLevelChunkPacket w forget = .ok (some e, w') ∧
        w'.Columns forget.pos = none ∧
        ∀ k, k ≠ forget.pos → w'.Columns k = w.Columns k) := by
  constructor
  · intro load dt f hdim hh hscan hf hfe
    rw [handleLevelChunkWithLightPacket_ok w load dt hdim hh hscan hlock, hf]
    simp only [Option.bind, hfe]
    exact ⟨_, rfl, by simp, fun k hk => by simp [hk]⟩
  · intro forget g hscan hg hge
    rw [handleForgetLevelChunkPacket_ok w forget hscan hlock, hg]
    simp only [Option.bind, hge]
    exact ⟨_, rfl, by simp, fun k hk => by simp [hk]⟩

/-- C3, amended, at the sample world with a failing callback and the batch
`[28688, 36865]`. -/
theorem multiBlockUpdate_writes_code_layout_witness :
    ∃ n applied w', n ≤ [(28688 : Int), 36865].length ∧
      multiBlockUpdate (sampleWorld (constEvents (some "boom"))) 0 0 0 [(28688 : Int), 36865] = .ok (applied, w') ∧
      (applied = true → n = [(28688 : Int), 36865].length) ∧
      ((∀ f, (sampleWorld (constEvents (some "boom"))).events.MultiBlockUpdate = some f → ∀ x y z st tr, f x y z st tr = none) →
        applied = true) ∧
      w'.Columns ⟨int32 0, int32 0⟩
        = some (sampleChunk.setSection 0 (applyRecords ⟨fun _ => 0⟩ ([(28688 : Int), 36865].take n))) ∧
      (applied = false → 0 < n ∧ ∃ f b err, (sampleWorld (constEvents (some "boom"))).events.MultiBlockUpdate = some f ∧
        [(28688 : Int), 36865].get? (n - 1) = some b ∧
        recordAnswer f b ((sampleWorld (constEvents (some "boom"))).calls ++
          ([(28688 : Int), 36865].take (n - 1)).map (fun b => ⟨recordCall b, true⟩)) = some err) ∧
      (∀ f i b, (sampleWorld (constEvents (some "boom"))).events.MultiBlockUpdate = some f →
        (i + 1 < n ∨ (applied = true ∧ i < n)) → [(28688 : Int), 36865].get? i = some b →
        recordAnswer f b ((sampleWorld (constEvents (some "boom"))).calls ++
          ([(28688 : Int), 36865].take i).map (fun b => ⟨recordCall b, true⟩)) = none) ∧
      (∀ v, codeRecordIdx v = 256 * (v % 16) + 16 * (sar v 4 % 16) + sar v 8 % 16) :=
  multiBlockUpdate_writes_code_layout (sampleWorld (constEvents (some "boom"))) 0 0 0 [(28688 : Int), 36865] sampleChunk ⟨fun _ => 0⟩ rfl rfl rfl

/-- C11, amended, at the sample world with a failing callback and the batch
`[28688, 36865]`. -/
theorem multiBlockUpdate_applies_a_prefix_witness :
    ∃ n applied w', n ≤ [(28688 : Int), 36865].length ∧
      multiBlockUpdate (sampleWorld (constEvents (some "boom"))) 0 0 0 [(28688 : Int), 36865] = .ok (applied, w') ∧
      w'.Columns ⟨int32 0, int32 0⟩
        = some (sampleChunk.setSection 0 (applyRecords ⟨fun _ => 0⟩ ([(28688 : Int), 36865].take n))) ∧
      (∀ k, k ≠ (⟨int32 0, int32 0⟩ : ChunkPos) → w'.Columns k = (sampleWorld (constEvents (some "boom"))).Columns k) ∧
      w'.calls = (sampleWorld (constEvents (some "boom"))).calls ++ (match (sampleWorld (constEvents (some "boom"))).events.MultiBlockUpdate with
        | none => []
        | some _ => ([(28688 : Int), 36865].take n).map (fun b => ⟨recordCall b, true⟩)) ∧
      (applied = true → n = [(28688 : Int), 36865].length) ∧
      (applied = false → 0 < n ∧ ∃ f b err, (sampleWorld (constEvents (some "boom"))).events.MultiBlockUpdate = some f ∧
        [(28688 : Int), 36865].get? (n - 1) = some b ∧
        recordAnswer f b ((sampleWorld (constEvents (some "boom"))).calls ++
          ([(28688 : Int), 36865].take (n - 1)).map (fun b => ⟨recordCall b, true⟩)) = some err) ∧
      (∀ f i b err, (sampleWorld (constEvents (some "boom"))).events.MultiBlockUpdate = some f → [(28688 : Int), 36865].get? i = some b →
        recordAnswer f b ((sampleWorld (constEvents (some "boom"))).calls ++
          ([(28688 : Int), 36865].take i).map (fun b => ⟨recordCall b, true⟩)) = some err →
        (∀ j b', j < i → [(28688 : Int), 36865].get? j = some b' →
          recordAnswer f b' ((sampleWorld (constEvents (some "boom"))).calls ++
            ([(28688 : Int), 36865].take j).map (fun b => ⟨recordCall b, true⟩)) = none) →
        applied = false ∧ n = i + 1) ∧
      ((∀ f, (sampleWorld (constEvents (some "boom"))).events.MultiBlockUpdate = some f → ∀ x y z st tr, f x y z st tr = none) →
        applied = true ∧ n = [(28688 : Int), 36865].length) :=
  multiBlockUpdate_applies_a_prefix (sampleWorld (constEvents (some "boom"))) 0 0 0 [(28688 : Int), 36865] sampleChunk ⟨fun _ => 0⟩ rfl rfl rfl

/-- C15 in two worlds: a load of column (1, 0) where only `LoadChunk` is
registered, and an unload of column (0, 0) where only `UnloadChunk` is
registered and the dimension does not resolve; both callbacks answer
"boom". -/
theorem callback_error_does_not_roll_back_witness :
    (∃ w', handleLevelChunkWithLightPacket
        (sampleWorld ⟨some (fun _ _ => some "boom"), none, none, none⟩)
        ⟨none, ⟨1, 0⟩, fun _ => ⟨fun _ => 5⟩⟩ = .ok (some "boom", w') ∧
      w'.Columns ⟨1, 0⟩
        = some (loadedChunk ⟨384, -64⟩ ⟨none, ⟨1, 0⟩, fun _ => ⟨fun _ => 5⟩⟩) ∧
      ∀ k, k ≠ (⟨1, 0⟩ : ChunkPos) →
        w'.Columns k
          = (sampleWorld ⟨some (fun _ _ => some "boom"), none, none, none⟩).Columns k) ∧
    (∃ w', handleForgetLevelChunkPacket
        ((NewWorld lostPlayer ⟨none, some (fun _ _ => some "boom"), none, none⟩).store
          ⟨0, 0⟩ sampleChunk)
        ⟨none, ⟨0, 0⟩⟩ = .ok (some "boom", w') ∧
      w'.Columns ⟨0, 0⟩ = none ∧
      ∀ k, k ≠ (⟨0, 0⟩ : ChunkPos) →
        w'.Columns k
          = ((NewWorld lostPlayer ⟨none, some (fun _ _ => some "boom"), none, none⟩).store
              ⟨0, 0⟩ sampleChunk).Columns k) :=
  ⟨(callback_error_does_not_roll_back
      (sampleWorld ⟨some (fun _ _ => some "boom"), none, none, none⟩) "boom" rfl).1
      ⟨none, ⟨1, 0⟩, fun _ => ⟨fun _ => 5⟩⟩ ⟨384, -64⟩ (fun _ _ => some "boom")
      rfl (by decide) rfl rfl rfl,
    (callback_error_does_not_roll_back
      ((NewWorld lostPlayer ⟨none, some (fun _ _ => some "boom"), none, none⟩).store
        ⟨0, 0⟩ sampleChunk) "boom" rfl).2
      ⟨none, ⟨0, 0⟩⟩ (fun _ _ => some "boom") rfl rfl rfl⟩

end GoMc
